import Mathlib

/-!
# GuildRecruitmentBot — verification of the reconciliation engine

Shallow embedding of the spreadsheet-to-forum reconciliation logic of the
`ServerManager` class (duplicate removal, unmatched/stale removal, oldest-thread
repost, new-entry posting, similar-name alerting) together with the freshness
policy and the title sanitizer, plus theorems checking the specification's
claims against this embedding.

Conventions of the embedding:
* JS strings are Lean `String`s; `trim`, `toLowerCase`, `includes` are modelled
  character-wise below.
* Machine time is rational milliseconds since the Unix epoch (`now : ℚ`);
  Luxon `diff(..., 'days').days` / `'hours'` become exact rational division.
* An unparseable `DateTime.fromFormat` result propagates as `none`; comparing a
  `NaN` age with `>` in JS yields `false`, which the embedding reproduces by
  returning `false` in the `none` branch of `isEntryTooOld`.
* The Unicode classes `\p{L}` / `\p{N}` used by the sanitizer are an external
  table; the development is parametric in their membership test `isLN`.
* Remote calls (thread create/delete) are modelled as pure state updates plus an
  action log; failure/timeout outcomes are explicit parameters where a claim is
  about them.
-/

namespace GuildBot

/-- Whitespace class shared by JS `String.prototype.trim` and regex `\s`
(ASCII whitespace, NBSP and BOM cover every character appearing here). -/
def jsSpace (c : Char) : Bool :=
  c == ' ' || c == '\t' || c == '\n' || c == '\r' ||
  c.val == 11 || c.val == 12 || c.val == 160 || c.val == 0xFEFF

/-- Trim on character lists: drop leading and trailing whitespace. -/
def trimChars (l : List Char) : List Char :=
  ((l.dropWhile jsSpace).reverse.dropWhile jsSpace).reverse

/-- Model of `s.trim()`. -/
def jsTrim (s : String) : String := ⟨trimChars s.data⟩

/-- Model of `s.toLowerCase()` (character-wise). -/
def jsLower (s : String) : String := ⟨s.data.map Char.toLower⟩

/-- `s.trim().toLowerCase()`, the normalization applied to thread titles and
guild names throughout `ServerManager`. -/
def normStr (s : String) : String := jsLower (jsTrim s)

/-- Model of `hay.includes(sub)`. -/
def jsIncludes (hay sub : String) : Bool := decide (sub.data <:+: hay.data)

/-! ## Calendar arithmetic for `DateTime.fromFormat(ts, 'MM/dd/yyyy HH:mm:ss')` -/

/-- Proleptic Gregorian leap-year rule. -/
def isLeap (y : Nat) : Bool := (y % 4 == 0 && y % 100 != 0) || y % 400 == 0

/-- Number of days in a month. -/
def daysInMonth (y m : Nat) : Nat :=
  if m == 2 then (if isLeap y then 29 else 28)
  else if m == 4 || m == 6 || m == 9 || m == 11 then 30 else 31

/-- Days since 1970-01-01 of a civil date (standard era/year-of-era algorithm,
truncating integer division as in the reference implementation). -/
def epochDays (y m d : Nat) : Int :=
  let y' : Int := if m ≤ 2 then (y : Int) - 1 else (y : Int)
  let era : Int := (if 0 ≤ y' then y' else y' - 399) / 400
  let yoe : Int := y' - era * 400
  let mp : Int := ((m : Int) + 9) % 12
  let doy : Int := (153 * mp + 2) / 5 + (d : Int) - 1
  let doe : Int := yoe * 365 + yoe / 4 - yoe / 100 + doy
  era * 146097 + doe - 719468

/-- Milliseconds since the epoch of a civil date-time. -/
def toMillis (y mo d h mi s : Nat) : Int :=
  epochDays y mo d * 86400000 + ((h * 3600000 + mi * 60000 + s * 1000 : Nat) : Int)

/-- One decimal digit. -/
def dig (c : Char) : Option Nat :=
  if c.isDigit then some (c.toNat - 48) else none

/-- Two decimal digits. -/
def dig2 (a b : Char) : Option Nat := do
  let x ← dig a
  let y ← dig b
  some (10 * x + y)

/-- `DateTime.fromFormat(ts, 'MM/dd/yyyy HH:mm:ss')`, returning epoch
milliseconds for a valid date and `none` for anything unparseable (wrong shape,
non-digits, or out-of-range fields — Luxon marks these invalid). -/
def parseTimestamp (s : String) : Option Int :=
  match s.data with
  | [m1, m2, '/', d1, d2, '/', y1, y2, y3, y4, ' ', h1, h2, ':', n1, n2, ':', p1, p2] => do
    let mo ← dig2 m1 m2
    let d ← dig2 d1 d2
    let yh ← dig2 y1 y2
    let yl ← dig2 y3 y4
    let h ← dig2 h1 h2
    let mi ← dig2 n1 n2
    let sec ← dig2 p1 p2
    let y := 100 * yh + yl
    if 1 ≤ mo && mo ≤ 12 && 1 ≤ d && d ≤ daysInMonth y mo &&
       h ≤ 23 && mi ≤ 59 && sec ≤ 59 then
      some (toMillis y mo d h mi sec)
    else none
  | _ => none

/-! ## Freshness policy -/

def msPerDay : ℚ := 86400000
def msPerHour : ℚ := 3600000

/-- `isEntryTooOld(timestamp)`:
`DateTime.now().diff(DateTime.fromFormat(timestamp, 'MM/dd/yyyy HH:mm:ss'),
'days').days > MAX_ENTRY_AGE_DAYS`.  On an unparseable timestamp the diff is
`NaN` and `NaN > x` is `false` in JS, hence the `none` branch. -/
def isEntryTooOld (now maxEntryAgeDays : ℚ) (ts : String) : Bool :=
  match parseTimestamp ts with
  | none => false
  | some t => decide ((now - (t : ℚ)) / msPerDay > maxEntryAgeDays)

/-- A forum thread as seen by the engine: title plus optional creation time
(epoch milliseconds; `none` models a `null` `createdAt`). -/
structure Thread where
  name : String
  createdAt : Option Int
deriving DecidableEq, Repr

/-- `getThreadAge(thread)`: hours since creation, `-1` when `createdAt` is
unavailable. -/
def getThreadAge (now : ℚ) (t : Thread) : ℚ :=
  match t.createdAt with
  | some c => (now - (c : ℚ)) / msPerHour
  | none => -1

/-- `needsRepost(thread)`: thread age at or past `THREAD_AGE_LIMIT_HOURS`. -/
def needsRepost (now limitHours : ℚ) (t : Thread) : Bool :=
  decide (getThreadAge now t ≥ limitHours)

/-! ## Title sanitizer (`sanitizeTitle`, `createGuildRecruitmentThread`) -/

/-- The character test of the regex `[^\p{L}\p{N}\s\-]` (parametric in the
Unicode letter/number table `isLN`). -/
def disallowedChar (isLN : Char → Bool) (c : Char) : Bool :=
  !(isLN c || jsSpace c || c == '-')

/-- `s.replace(/[^\p{L}\p{N}\s\-]/gu, '')`: delete every matched character. -/
def regexRemoveAll (isLN : Char → Bool) (s : String) : String :=
  ⟨s.data.filter (fun c => !(disallowedChar isLN c))⟩

/-- `sanitizeTitle(guildName, guildScope)`. -/
def sanitizeTitle (isLN : Char → Bool) (guildName guildScope : String) : String :=
  "<" ++ jsTrim (regexRemoveAll isLN guildName) ++ "> - " ++
    jsTrim (regexRemoveAll isLN guildScope)

/-- The thread name actually passed to `channel.threads.create` by
`createGuildRecruitmentThread`: `sanitizedTitle || 'No Title'`. -/
def createThreadTitle (isLN : Char → Bool) (guildName guildScope : String) : String :=
  let t := sanitizeTitle isLN guildName guildScope
  if t == "" then "No Title" else t

/-- Modelled from the spec's wording for C8 (not from the source): keep exactly
letters, digits, spaces and hyphens, then trim, then format. -/
def specDerivedTitle (isLN : Char → Bool) (guildName guildScope : String) : String :=
  "<" ++ jsTrim ⟨guildName.data.filter (fun c => isLN c || jsSpace c || c == '-')⟩ ++
    "> - " ++ jsTrim ⟨guildScope.data.filter (fun c => isLN c || jsSpace c || c == '-')⟩

/-! ## Spreadsheet rows and column resolution -/

/-- A spreadsheet row (raw grid row of strings). -/
abbrev Row := List String

/-- `row[i]`: `undefined` (`none`) when the ragged row has no such cell. -/
def cell (r : Row) (i : Nat) : Option String := r.get? i

/-- `row[i]?.trim()` collapsed through JS truthiness: a missing cell and an
empty trimmed cell are both falsy, and every use site of this helper consults
only truthiness, so both are rendered as `""`. -/
def cellTrim (r : Row) (i : Nat) : String := ((cell r i).map jsTrim).getD ""

/-- `headers.indexOf(name)` (exact string equality, first match). -/
def colIdx (headers : Row) (name : String) : Option Nat := headers.findIdx? (· == name)

/-! ## Phase 1: `removeDuplicateThreads` -/

/-- One step of grouping threads by title into a JS `Map`: push the thread to
its group if the key exists, otherwise append a new singleton group. -/
def groupStep (m : List (String × List Thread)) (t : Thread) : List (String × List Thread) :=
  let title := normStr t.name
  if m.any (fun p => p.1 == title) then
    m.map (fun p => if p.1 == title then (p.1, p.2 ++ [t]) else p)
  else m ++ [(title, [t])]

/-- Group active threads by normalized (`trim().toLowerCase()`) title into a JS
`Map`: keys in first-insertion order, threads appended per group in enumeration
order. -/
def groupByTitle (threads : List Thread) : List (String × List Thread) :=
  threads.foldl groupStep []

/-- The threads deleted by `removeDuplicateThreads` (reason "Duplicate
thread"): for every title group, everything but the first (`slice(1)`). -/
def duplicateDeletions (threads : List Thread) : List Thread :=
  ((groupByTitle threads).map (fun p => p.2.drop 1)).flatten

/-- The channel state left behind by the duplicate deletions: the first
enumerated thread of each normalized-title group, in enumeration order. -/
def keepFirstByTitle : List Thread → List String → List Thread
  | [], _ => []
  | t :: ts, seen =>
    let title := normStr t.name
    if seen.contains title then keepFirstByTitle ts seen
    else t :: keepFirstByTitle ts (title :: seen)

/-- `removeDuplicateThreads(channel)`: (remaining threads, deleted threads). -/
def removeDuplicateThreads (threads : List Thread) : List Thread × List Thread :=
  (keepFirstByTitle threads [], duplicateDeletions threads)

/-! ## Phase 2: `removeUnmatchedThreads` -/

/-- JS `Map.set`: overwrite the value at an existing key (keeping the key's
original position) or append a new binding. -/
def mapSet (m : List (String × String)) (k v : String) : List (String × String) :=
  if m.any (fun p => p.1 == k) then
    m.map (fun p => if p.1 == k then (k, v) else p)
  else m ++ [(k, v)]

/-- The row filter of phase 2's map construction, which C1 words as "non-empty
guild name and a not-too-old timestamp": the code's
`if (guildName && timestamp && !this.isEntryTooOld(timestamp))`, where
`guildName` is the trimmed lower-cased guild cell and `timestamp` the trimmed
timestamp cell (missing cells are falsy like empty ones). -/
def rowEligible (now maxD : ℚ) (gIdx tIdx : Nat) (r : Row) : Prop :=
  jsLower (cellTrim r gIdx) ≠ "" ∧ cellTrim r tIdx ≠ "" ∧
    isEntryTooOld now maxD (cellTrim r tIdx) = false

instance (now maxD : ℚ) (gIdx tIdx : Nat) (r : Row) :
    Decidable (rowEligible now maxD gIdx tIdx r) := by
  unfold rowEligible; infer_instance

/-- One row's contribution to the `sheetEntries` map: insert
`normalized guild name ↦ trimmed timestamp` when the guild name and timestamp
are truthy and the entry is not too old. -/
def sheetEntriesStep (now maxD : ℚ) (gIdx tIdx : Nat)
    (m : List (String × String)) (r : Row) : List (String × String) :=
  if rowEligible now maxD gIdx tIdx r then
    mapSet m (jsLower (cellTrim r gIdx)) (cellTrim r tIdx)
  else m

/-- The `sheetEntries` map of `removeUnmatchedThreads` over the data rows. -/
def sheetEntries (now maxD : ℚ) (gIdx tIdx : Nat) (rows : List Row) :
    List (String × String) :=
  rows.foldl (sheetEntriesStep now maxD gIdx tIdx) []

/-- The deletion test of `removeUnmatchedThreads`: find the first map key
contained in the normalized thread title; delete when there is none or when
the stored entry is too old (the latter re-check never fires, since only fresh
entries are inserted). -/
def unmatchedDelete (now maxD : ℚ) (entries : List (String × String)) (t : Thread) : Bool :=
  match entries.find? (fun p => jsIncludes (normStr t.name) p.1) with
  | none => true
  | some p => isEntryTooOld now maxD p.2

/-- `removeUnmatchedThreads(channel)`: (remaining threads, deleted threads).
A missing header row or required column aborts the phase without deletions. -/
def removeUnmatchedThreads (now maxD : ℚ) (rows : List Row) (threads : List Thread) :
    List Thread × List Thread :=
  match rows.head? with
  | none => (threads, [])
  | some headers =>
    match colIdx headers "Guild Name", colIdx headers "Timestamp" with
    | some gIdx, some tIdx =>
      let entries := sheetEntries now maxD gIdx tIdx rows.tail
      (threads.filter (fun t => !unmatchedDelete now maxD entries t),
       threads.filter (fun t => unmatchedDelete now maxD entries t))
    | _, _ => (threads, [])

/-! ## Phase 3: `repostOldestThread` -/

/-- The two recruitment channels (routing target of the `Faction` column). -/
inductive Chan
  | alliance
  | horde
deriving DecidableEq, Repr

/-- `faction === 'Alliance' ? allianceChannel : faction === 'Horde' ?
hordeChannel : null`. -/
def chanOf (faction : String) : Option Chan :=
  if faction == "Alliance" then some .alliance
  else if faction == "Horde" then some .horde
  else none

/-- `generateMessageContent` succeeds exactly when the body loop
(`for j = 1; j < row.length`) never reads `headers[j]` out of range; a row
longer than the header row makes `headers[j].trim()` throw on `undefined`. -/
def msgContentOk (headers : Row) (r : Row) : Bool :=
  decide (r.length ≤ 1 ∨ r.length ≤ headers.length)

/-- The row-matching of the repost loop: first data row whose truthy
trimmed lower-cased guild name is contained in the normalized thread title. -/
def repostMatchRow (gIdx : Nat) (rows : List Row) (t : Thread) : Option Row :=
  rows.find? (fun r =>
    jsLower (cellTrim r gIdx) ≠ "" &&
      jsIncludes (normStr t.name) (jsLower (cellTrim r gIdx)))

/-- Result of scanning the sorted repost candidates. -/
inductive RepostPick
  | found (t : Thread) (r : Row)
  | missing
  | aborted
deriving DecidableEq, Repr

/-- The repost loop over the sorted candidates: skip threads without a
matching row; on a match consult the raw (untrimmed) `Timestamp` cell — a
missing column or missing cell makes Luxon throw, aborting the phase — and
skip the thread when its entry is too old; otherwise repost it. -/
def repostPick (now : Int) (maxD : ℚ) (gIdx : Nat) (tIdx : Option Nat)
    (rows : List Row) : List Thread → RepostPick
  | [] => .missing
  | t :: ts =>
    match repostMatchRow gIdx rows t with
    | none => repostPick now maxD gIdx tIdx rows ts
    | some r =>
      match tIdx with
      | none => .aborted
      | some ti =>
        match cell r ti with
        | none => .aborted
        | some tsRaw =>
          if isEntryTooOld now maxD tsRaw then repostPick now maxD gIdx tIdx rows ts
          else .found t r

/-- `handleThreadReposting` after the deletion: render the message (a throw is
caught locally and skips the recreation), re-extract guild name and scope, and
recreate under the sanitized title.  Returns the created thread, or `none`
when no thread is created (render failure, falsy guild name, or a missing
scope cell making `sanitizeTitle` throw inside the creation's catch-all). -/
def handleThreadRepostingCreate (now : Int) (isLN : Char → Bool) (headers : Row)
    (r : Row) : Option Thread :=
  if msgContentOk headers r then
    match colIdx headers "Guild Name" with
    | none => none
    | some gi =>
      if cellTrim r gi = "" then none
      else
        match colIdx headers "Guild Type" with
        | none => some ⟨createThreadTitle isLN (cellTrim r gi) "Unknown", some now⟩
        | some si =>
          match (cell r si).map jsTrim with
          | none => none
          | some sc => some ⟨createThreadTitle isLN (cellTrim r gi) sc, some now⟩
  else none

/-- Sort key of the repost candidates: `createdAt` milliseconds, `0` for a
missing creation time (`dateA - dateB` ascending, stable). -/
def byCreated (a b : Thread) : Bool :=
  decide (a.createdAt.getD 0 ≤ b.createdAt.getD 0)

/-- The repost candidates: active threads needing repost, sorted oldest first
(stable, like JS `Array.prototype.sort`). -/
def repostCandidates (now : Int) (limitH : ℚ) (threads : List Thread) : List Thread :=
  (threads.filter (needsRepost now limitH)).mergeSort byCreated

/-- Whether the repost loop accepts a thread: it has a matching row whose raw
`Timestamp` cell is present and not too old. -/
def repostEligibleB (now : Int) (maxD : ℚ) (gIdx tIdx : Nat) (rows : List Row)
    (t : Thread) : Bool :=
  match repostMatchRow gIdx rows t with
  | none => false
  | some r =>
    match cell r tIdx with
    | none => false
    | some c => !(isEntryTooOld now maxD c)

/-- Outcome of one channel's run of `repostOldestThread`. -/
structure RepostResult where
  threads : List Thread
  deleted : List Thread
  created : List Thread
  aborted : Bool
deriving DecidableEq, Repr

/-- One channel's `handleReposting`: filter the active threads needing repost,
sort them oldest first, pick the first with a fresh matching row, delete it
and recreate it. -/
def repostChannel (now : Int) (limitH maxD : ℚ) (isLN : Char → Bool)
    (rows : List Row) (threads : List Thread) : RepostResult :=
  match rows.head? with
  | none => ⟨threads, [], [], true⟩
  | some headers =>
    match colIdx headers "Guild Name" with
    | none => ⟨threads, [], [], false⟩
    | some gIdx =>
      match repostPick now maxD gIdx (colIdx headers "Timestamp") rows.tail
          (repostCandidates now limitH threads) with
      | .missing => ⟨threads, [], [], false⟩
      | .aborted => ⟨threads, [], [], true⟩
      | .found t r =>
        let newT := handleThreadRepostingCreate now isLN headers r
        ⟨threads.erase t ++ newT.toList, [t], newT.toList, false⟩

/-! ## Phase 4: `postNewEntries` -/

/-- Result of one creation attempt as observed by the caller's
`Promise.race`: the inner function resolves (to a thread or to `undefined` —
it never rejects), or the caller's own 10-second timeout rejects first. -/
inductive CreateOutcome
  | ok
  | fail
  | callerTimeout
deriving DecidableEq, Repr

/-- Pop the next outcome; an exhausted script means plain success. -/
def nextOutcome : List CreateOutcome → CreateOutcome × List CreateOutcome
  | [] => (.ok, [])
  | o :: os => (o, os)

/-- `MAX_NEW_THREADS_PER_CYCLE || 10` (`undefined` or `0` fall back to 10). -/
def capDefault (c : Option Nat) : Nat :=
  match c with
  | none => 10
  | some n => if n == 0 then 10 else n

/-- First pass of `postNewEntries`: guild names (trimmed, original case) of
rows whose lower-cased name is contained in no existing normalized thread
title from either channel. -/
def newGuildNames (gIdx : Nat) (existingNames : List String) (rows : List Row) :
    List String :=
  rows.foldl (fun acc r =>
    if cellTrim r gIdx ≠ "" ∧
        ¬ existingNames.any (fun tn => jsIncludes tn (jsLower (cellTrim r gIdx))) then
      acc ++ [cellTrim r gIdx]
    else acc) []

/-- The two channels' thread lists. -/
structure TwoChan where
  alliance : List Thread
  horde : List Thread
deriving DecidableEq, Repr

/-- Append a newly created thread to its channel. -/
def addThread (s : TwoChan) (c : Chan) (t : Thread) : TwoChan :=
  match c with
  | .alliance => ⟨s.alliance ++ [t], s.horde⟩
  | .horde => ⟨s.alliance, s.horde ++ [t]⟩

/-- The thread that `createGuildRecruitmentThread` actually produces for a
row when the platform call itself succeeds: with a missing `Guild Type` cell
the scope is `undefined`, `sanitizeTitle(guildName, undefined)` throws inside
the function's `try`, the catch-all resolves `undefined`, and no thread is
created (the caller still counts the attempt). -/
def postCreateThread (now : Int) (isLN : Char → Bool) (gIdx sIdx : Nat)
    (r : Row) : Option Thread :=
  match (cell r sIdx).map jsTrim with
  | none => none
  | some sc => some ⟨createThreadTitle isLN (cellTrim r gIdx) sc, some now⟩

/-- Append an optional created thread to its channel (no-op on `none`). -/
def addThreadOpt (s : TwoChan) (c : Chan) (t : Option Thread) : TwoChan :=
  match t with
  | none => s
  | some t => addThread s c t

/-- Running state of the second pass of `postNewEntries`. -/
structure PostState where
  chans : TwoChan
  attempts : List (Chan × String × String)
  posts : Nat
  aborted : Bool
deriving DecidableEq, Repr

/-- Second pass of `postNewEntries`: per row — stop at the cap, skip rows with
a falsy or represented guild name, abort the phase when the timestamp cell is
missing (Luxon throws on `undefined`, caught by the outer handler) or when the
message render throws, skip too-old rows and unknown factions, then call
`createGuildRecruitmentThread` (counter incremented whether or not the inner
creation succeeded; a missing scope cell makes the inner `sanitizeTitle`
throw into the catch-all, so no thread is added even on a platform success;
only the caller's own timeout stops the loop). -/
def postLoop (now : Int) (maxD : ℚ) (isLN : Char → Bool) (cap : Nat)
    (gIdx fIdx tIdx sIdx : Nat) (headers : Row) (newNames : List String) :
    List Row → List CreateOutcome → PostState → PostState
  | [], _, st => st
  | r :: rs, outs, st =>
    if st.posts ≥ cap then st
    else if cellTrim r gIdx = "" ∨ cellTrim r gIdx ∉ newNames then
      postLoop now maxD isLN cap gIdx fIdx tIdx sIdx headers newNames rs outs st
    else
      match cell r tIdx with
      | none => { st with aborted := true }
      | some tsRaw =>
        if isEntryTooOld now maxD (jsTrim tsRaw) then
          postLoop now maxD isLN cap gIdx fIdx tIdx sIdx headers newNames rs outs st
        else
          match chanOf (cellTrim r fIdx) with
          | none => postLoop now maxD isLN cap gIdx fIdx tIdx sIdx headers newNames rs outs st
          | some ch =>
            if msgContentOk headers r then
              match (nextOutcome outs).1 with
              | .callerTimeout =>
                { st with
                  attempts := st.attempts ++ [(ch, cellTrim r gIdx, cellTrim r sIdx)]
                  aborted := true }
              | .ok =>
                postLoop now maxD isLN cap gIdx fIdx tIdx sIdx headers newNames rs
                  (nextOutcome outs).2
                  { chans := addThreadOpt st.chans ch
                      (postCreateThread now isLN gIdx sIdx r)
                    attempts := st.attempts ++ [(ch, cellTrim r gIdx, cellTrim r sIdx)]
                    posts := st.posts + 1
                    aborted := st.aborted }
              | .fail =>
                postLoop now maxD isLN cap gIdx fIdx tIdx sIdx headers newNames rs
                  (nextOutcome outs).2
                  { st with
                    attempts := st.attempts ++ [(ch, cellTrim r gIdx, cellTrim r sIdx)]
                    posts := st.posts + 1 }
            else { st with aborted := true }

/-- `postNewEntries(allianceChannel, hordeChannel)`: resolve the four required
columns (missing ⇒ abort without creations), snapshot both channels' titles,
run both passes. -/
def postNewEntries (now : Int) (maxD : ℚ) (isLN : Char → Bool)
    (capCfg : Option Nat) (rows : List Row) (outs : List CreateOutcome)
    (s : TwoChan) : PostState :=
  match rows.head? with
  | none => ⟨s, [], 0, false⟩
  | some headers =>
    match colIdx headers "Faction", colIdx headers "Guild Name",
        colIdx headers "Timestamp", colIdx headers "Guild Type" with
    | some fIdx, some gIdx, some tIdx, some sIdx =>
      let existingNames := s.alliance.map (fun t => normStr t.name) ++
        s.horde.map (fun t => normStr t.name)
      let newNames := newGuildNames gIdx existingNames rows.tail
      postLoop now maxD isLN (capDefault capCfg) gIdx fIdx tIdx sIdx headers newNames
        rows.tail outs ⟨s, [], 0, false⟩
    | _, _, _, _ => ⟨s, [], 0, false⟩

/-- The body of `createGuildRecruitmentThread` as an exception-typed
computation: await the inner creation race and wrap it in the function's
catch-all, which converts every rejection into a resolved `undefined`. -/
inductive CreateFail
  | platformErr
  | innerTimeout
deriving DecidableEq, Repr

def createGuildRecruitmentThreadM (race : Except CreateFail Thread) :
    Except CreateFail (Option Thread) :=
  Except.tryCatch (do let t ← race; pure (some t)) (fun _ => pure none)

/-! ## Similar-name alerting (`findSimilarThreads`, `checkAndPostSimilarThreads`) -/

/-- All ordered pairs `(l[i], l[j])` with `i < j`, in the double-loop order of
`findSimilarThreads`. -/
def pairsAfter {α : Type} : List α → List (α × α)
  | [] => []
  | x :: xs => xs.map (fun y => (x, y)) ++ pairsAfter xs

/-- Append a thread to the cluster keyed `k` in the JS `Map`, or start a new
cluster. -/
def addCluster (m : List (String × List Thread)) (k : String) (t : Thread) :
    List (String × List Thread) :=
  if m.any (fun p => p.1 == k) then
    m.map (fun p => if p.1 == k then (p.1, p.2 ++ [t]) else p)
  else m ++ [(k, [t])]

/-- `findSimilarThreads(threads, threshold)`: pairwise comparison of
normalized titles (`i < j`); a pair scoring at or above the threshold appends
thread `j` to the cluster keyed by title `i`.  The similarity score (the
`string-similarity` library's Dice coefficient) is an external collaborator
and enters as the parameter `sim`. -/
def findSimilarThreads (sim : String → String → ℚ) (θ : ℚ) (threads : List Thread) :
    List (String × List Thread) :=
  (pairsAfter (threads.map (fun t => (normStr t.name, t)))).foldl
    (fun m pq => if sim pq.1.1 pq.2.1 ≥ θ then addCluster m pq.1.1 pq.2.2 else m) []

/-- A moderation-channel thread: title plus fetched message bodies. -/
structure ModThread where
  name : String
  messages : List String
deriving DecidableEq, Repr

/-- `extractGuildNameFromThreadName`: the part before the first `" - "`
separator (the whole name when absent), trimmed. -/
def extractGuildNameFromThreadName (name : String) : String :=
  jsTrim ((name.splitOn " - ").headD name)

/-- The lower-cased extracted guild names of a cluster's members. -/
def guildNamesOf (members : List Thread) : List String :=
  members.map (fun t => jsLower (extractGuildNameFromThreadName t.name))

/-- Whether one moderation-channel thread already references one of the guild
names, case-insensitively, in its title or any message body. -/
def modThreadMentions (g : List String) (mt : ModThread) : Bool :=
  g.any (fun gn => jsIncludes (jsLower mt.name) gn ||
    mt.messages.any (fun msg => jsIncludes (jsLower msg) gn))

/-- `checkAndPostSimilarThreads(channel)`: cluster at threshold 0.8, then post
an alert for exactly the clusters none of whose members' guild names is
already referenced by an existing moderation-channel thread.  Returns the
clusters for which an alert thread is created. -/
def checkAndPostSimilarThreads (sim : String → String → ℚ) (threads : List Thread)
    (modThreads : List ModThread) : List (String × List Thread) :=
  (findSimilarThreads sim 0.8 threads).filter (fun cluster =>
    !(modThreads.any (fun mt => modThreadMentions (guildNamesOf cluster.2) mt)))

/-! ## The full reconciliation cycle (`pollServer` ordering) -/

/-- The title derived from a row: `sanitizeTitle(guild name, guild scope)`. -/
def derivedTitle (isLN : Char → Bool) (gIdx sIdx : Nat) (r : Row) : String :=
  sanitizeTitle isLN (cellTrim r gIdx) (cellTrim r sIdx)

/-- The thread created by `postNewEntries` for a row. -/
def mkNewThread (now : Int) (isLN : Char → Bool) (gIdx sIdx : Nat) (r : Row) : Thread :=
  ⟨createThreadTitle isLN (cellTrim r gIdx) (cellTrim r sIdx), some now⟩

/-- The creation attempt recorded for a row: routed channel (defined whenever
an attempt actually happens), guild name, scope. -/
def mkAttempt (gIdx fIdx sIdx : Nat) (r : Row) : Chan × String × String :=
  ((chanOf (cellTrim r fIdx)).getD Chan.alliance, cellTrim r gIdx, cellTrim r sIdx)

/-- Rows for which the second pass of `postNewEntries` performs a creation
call routed to channel `c`: truthy guild name, collected as new, entry not too
old, faction routed to `c`. -/
def createPred (now : Int) (maxD : ℚ) (gIdx fIdx tIdx : Nat)
    (newNames : List String) (c : Chan) (r : Row) : Bool :=
  decide (cellTrim r gIdx ≠ "") && decide (cellTrim r gIdx ∈ newNames) &&
    !(isEntryTooOld now maxD (cellTrim r tIdx)) &&
    decide (chanOf (cellTrim r fIdx) = some c)

/-- Rows for which the second pass performs a creation call (either channel). -/
def createAny (now : Int) (maxD : ℚ) (gIdx fIdx tIdx : Nat)
    (newNames : List String) (r : Row) : Bool :=
  createPred now maxD gIdx fIdx tIdx newNames .alliance r ||
    createPred now maxD gIdx fIdx tIdx newNames .horde r

/-- A thread whose normalized title is the derived title of a fresh, truthy
data row — the shape every thread holds after a clean reconciliation pass. -/
def goodThread (now : Int) (maxD : ℚ) (isLN : Char → Bool) (gIdx tIdx sIdx : Nat)
    (rows : List Row) (t : Thread) : Prop :=
  ∃ r ∈ rows, cellTrim r gIdx ≠ "" ∧
    isEntryTooOld now maxD (cellTrim r tIdx) = false ∧
    normStr t.name = normStr (derivedTitle isLN gIdx sIdx r)

/-- The per-phase actions of one reconciliation cycle (alliance, horde). -/
structure CycleLog where
  dupDeletedA : List Thread
  dupDeletedH : List Thread
  unmatchedDeletedA : List Thread
  unmatchedDeletedH : List Thread
  repostDeletedA : List Thread
  repostDeletedH : List Thread
  repostCreatedA : List Thread
  repostCreatedH : List Thread
  newAttempts : List (Chan × String × String)
deriving DecidableEq, Repr

/-- One full reconciliation cycle in the order run by `pollServer`: duplicate
removal on both channels, unmatched removal on both, one repost pass per
channel, then cross-channel new-entry posting (platform operations succeed:
no timeouts, empty outcome script). -/
def runCycle (now : Int) (limitH maxD : ℚ) (isLN : Char → Bool) (capCfg : Option Nat)
    (rows : List Row) (s : TwoChan) : TwoChan × CycleLog :=
  let dupA := removeDuplicateThreads s.alliance
  let dupH := removeDuplicateThreads s.horde
  let unA := removeUnmatchedThreads now maxD rows dupA.1
  let unH := removeUnmatchedThreads now maxD rows dupH.1
  let ra := repostChannel now limitH maxD isLN rows unA.1
  let rh := repostChannel now limitH maxD isLN rows unH.1
  let post := postNewEntries now maxD isLN capCfg rows [] ⟨ra.threads, rh.threads⟩
  (post.chans,
   ⟨dupA.2, dupH.2, unA.2, unH.2, ra.deleted, rh.deleted, ra.created, rh.created,
    post.attempts⟩)

/-! ## Theorems: freshness policy (C5, C6) and sanitizer (C8) -/

lemma sanitize_eq_keep (isLN : Char → Bool) (s : String) :
    regexRemoveAll isLN s = ⟨s.data.filter (fun c => isLN c || jsSpace c || c == '-')⟩ := by
  simp [regexRemoveAll, disallowedChar]

lemma sanitizeTitle_ne_empty (isLN : Char → Bool) (g s : String) :
    sanitizeTitle isLN g s ≠ "" := by
  simp only [sanitizeTitle]
  intro h
  have h' := congrArg String.data h
  simp [String.data_append] at h'

/-- C6: freshness-policy boundaries.  For a parseable timestamp the entry is
too old exactly when its age strictly exceeds the day threshold (false at
exactly the threshold); a thread needs repost exactly when its age is at or
past the hour threshold (inclusive); a thread without a creation time has age
`-1` and never needs repost under a positive threshold. -/
theorem freshness_policy_boundaries (now maxD limitH : ℚ) (ts : String) (t : Int)
    (hp : parseTimestamp ts = some t) :
    (isEntryTooOld now maxD ts = true ↔ (now - t) / msPerDay > maxD) ∧
    ((now - t) / msPerDay = maxD → isEntryTooOld now maxD ts = false) ∧
    (∀ th : Thread, needsRepost now limitH th = true ↔ getThreadAge now th ≥ limitH) ∧
    (∀ th : Thread, th.createdAt = none →
      getThreadAge now th = -1 ∧ (0 < limitH → needsRepost now limitH th = false)) := by
  refine ⟨?_, ?_, ?_, ?_⟩
  · simp [isEntryTooOld, hp]
  · intro h
    simp [isEntryTooOld, hp, h]
  · intro th
    simp [needsRepost]
  · intro th hnone
    have hage : getThreadAge now th = -1 := by simp [getThreadAge, hnone]
    refine ⟨hage, fun hpos => ?_⟩
    simp only [needsRepost, hage, decide_eq_false_iff_not, not_le]
    linarith

/-- C6 witness: concrete boundary instance (age exactly the threshold is not
too old; thread with `createdAt = none` has age `-1`). -/
theorem freshness_policy_boundaries_witness :
    isEntryTooOld 0 0 "01/01/1970 00:00:00" = false ∧
    getThreadAge 0 ⟨"t", none⟩ = -1 ∧ needsRepost 0 1 ⟨"t", none⟩ = false := by
  have h := freshness_policy_boundaries 0 0 1 "01/01/1970 00:00:00" 0 (by decide)
  exact ⟨h.2.1 (by norm_num [msPerDay]),
    (h.2.2.2 ⟨"t", none⟩ rfl).1, (h.2.2.2 ⟨"t", none⟩ rfl).2 (by norm_num)⟩

/-- C5 counterexample: the unparseable timestamp `"not a date"` makes
`isEntryTooOld` return `false`, not `true` — the invalid Luxon `DateTime`
yields a `NaN` day-difference and `NaN > MAX_ENTRY_AGE_DAYS` is `false` in JS,
so unparseable entries are treated as fresh, the opposite of the claim. -/
theorem unparseable_not_too_old_cex :
    parseTimestamp "not a date" = none ∧
    isEntryTooOld 1704067200000 14 "not a date" = false := by
  constructor <;> rfl

/-- C5 amended: for every timestamp that does not parse in the format
`MM/dd/yyyy HH:mm:ss`, `isEntryTooOld` returns `false` — the entry is treated
as *not* too old (failing toward retention/inclusion); the cycle does not
crash. -/
theorem unparseable_isEntryTooOld_false (now maxD : ℚ) (ts : String)
    (h : parseTimestamp ts = none) : isEntryTooOld now maxD ts = false := by
  simp [isEntryTooOld, h]

/-- C5 amended-claim witness at a concrete unparseable timestamp. -/
theorem unparseable_isEntryTooOld_false_witness :
    isEntryTooOld 1704067200000 14 "13/45/2024 99:99:99" = false :=
  unparseable_isEntryTooOld_false 1704067200000 14 "13/45/2024 99:99:99" (by decide)

/-- C8: the thread title produced by `createGuildRecruitmentThread` is exactly
`'<' ++ G' ++ '> - ' ++ S'` where `G'` and `S'` keep only letters (per the
Unicode table), digits, spaces and hyphens and are then trimmed; the
`|| 'No Title'` fallback never fires because the sanitized title is never
empty. -/
theorem created_title_matches_spec (isLN : Char → Bool) (g s : String) :
    createThreadTitle isLN g s = specDerivedTitle isLN g s ∧
    createThreadTitle isLN g s = sanitizeTitle isLN g s := by
  have hne : sanitizeTitle isLN g s ≠ "" := sanitizeTitle_ne_empty isLN g s
  have hct : createThreadTitle isLN g s = sanitizeTitle isLN g s := by
    simp only [createThreadTitle]
    rw [if_neg]
    simpa [beq_iff_eq] using hne
  refine ⟨?_, hct⟩
  rw [hct]
  simp only [sanitizeTitle, specDerivedTitle, sanitize_eq_keep]

/-! ## Theorems: duplicate removal (C4) -/

lemma groupStep_fold_spec (rest : List Thread) :
    ∀ (pre : List Thread) (m : List (String × List Thread)),
      (∀ p ∈ m, p.2 = pre.filter (fun t => normStr t.name == p.1)) →
      (∀ u ∈ pre, ∃ p ∈ m, p.1 = normStr u.name) →
      ∀ p ∈ rest.foldl groupStep m,
        p.2 = (pre ++ rest).filter (fun t => normStr t.name == p.1) := by
  induction rest with
  | nil => intro pre m h1 _ p hp; simpa using h1 p hp
  | cons t ts ih =>
    intro pre m h1 h2
    have hstep1 : ∀ p ∈ groupStep m t,
        p.2 = (pre ++ [t]).filter (fun u => normStr u.name == p.1) := by
      intro p hp
      simp only [groupStep] at hp
      by_cases hany : m.any (fun q => q.1 == normStr t.name) = true
      · rw [if_pos hany] at hp
        obtain ⟨q, hq, hfq⟩ := List.mem_map.mp hp
        by_cases hk : q.1 == normStr t.name
        · rw [if_pos hk] at hfq
          subst hfq
          simp only [List.filter_append, ← h1 q hq]
          simp [beq_iff_eq, (beq_iff_eq.mp hk).symm]
        · rw [if_neg hk] at hfq
          subst hfq
          simp only [List.filter_append, ← h1 q hq]
          have : ¬(normStr t.name == q.1) = true := by
            simp only [beq_iff_eq] at hk ⊢
            exact fun h => hk h.symm
          simp [this]
      · rw [if_neg hany] at hp
        rcases List.mem_append.mp hp with hp | hp
        · have hk : ¬(p.1 == normStr t.name) = true := by
            intro hk
            exact hany (List.any_eq_true.mpr ⟨p, hp, hk⟩)
          simp only [List.filter_append, ← h1 p hp]
          have : ¬(normStr t.name == p.1) = true := by
            simp only [beq_iff_eq] at hk ⊢
            exact fun h => hk h.symm
          simp [this]
        · simp only [List.mem_singleton] at hp
          subst hp
          have hpre : pre.filter (fun u => normStr u.name == normStr t.name) = [] := by
            rw [List.filter_eq_nil_iff]
            intro u hu hbeq
            obtain ⟨q, hq, hq1⟩ := h2 u hu
            exact hany (List.any_eq_true.mpr ⟨q, hq, by
              simp only [beq_iff_eq]
              rw [hq1, beq_iff_eq.mp hbeq]⟩)
          simp [List.filter_append, hpre]
    have hstep2 : ∀ u ∈ pre ++ [t], ∃ p ∈ groupStep m t, p.1 = normStr u.name := by
      intro u hu
      simp only [groupStep]
      by_cases hany : m.any (fun q => q.1 == normStr t.name) = true
      · rw [if_pos hany]
        rcases List.mem_append.mp hu with hu | hu
        · obtain ⟨q, hq, hq1⟩ := h2 u hu
          by_cases h : (q.1 == normStr t.name) = true
          · exact ⟨(q.1, q.2 ++ [t]), List.mem_map.mpr ⟨q, hq, by rw [if_pos h]⟩, hq1⟩
          · exact ⟨q, List.mem_map.mpr ⟨q, hq, by rw [if_neg h]⟩, hq1⟩
        · have he : u = t := List.mem_singleton.mp hu
          obtain ⟨q, hq, hk⟩ := List.any_eq_true.mp hany
          refine ⟨(q.1, q.2 ++ [t]), List.mem_map.mpr ⟨q, hq, by rw [if_pos hk]⟩, ?_⟩
          rw [he]
          exact beq_iff_eq.mp hk
      · rw [if_neg hany]
        rcases List.mem_append.mp hu with hu | hu
        · obtain ⟨q, hq, hq1⟩ := h2 u hu
          exact ⟨q, List.mem_append_left _ hq, hq1⟩
        · have he : u = t := List.mem_singleton.mp hu
          exact ⟨(normStr t.name, [t]), List.mem_append_right _ (by simp), by rw [he]⟩
    intro p hp
    have := ih (pre ++ [t]) (groupStep m t) hstep1 hstep2 p (by simpa using hp)
    simpa [List.append_assoc] using this

/-- Every title group holds exactly the threads with that normalized title, in
enumeration order. -/
lemma groupByTitle_eq_filter (threads : List Thread) :
    ∀ p ∈ groupByTitle threads,
      p.2 = threads.filter (fun t => normStr t.name == p.1) := by
  have := groupStep_fold_spec threads [] [] (by simp) (by simp)
  simpa [groupByTitle] using this

lemma keepFirst_sublist (threads : List Thread) :
    ∀ seen, (keepFirstByTitle threads seen).Sublist threads := by
  induction threads with
  | nil => intro seen; simp [keepFirstByTitle]
  | cons t ts ih =>
    intro seen
    simp only [keepFirstByTitle]
    by_cases h : seen.contains (normStr t.name)
    · simp only [h, if_true]
      exact (ih seen).cons t
    · simp only [h, if_false]
      exact (ih _).cons₂ t

lemma keepFirst_not_seen (threads : List Thread) :
    ∀ seen t, t ∈ keepFirstByTitle threads seen → normStr t.name ∉ seen := by
  induction threads with
  | nil => intro seen t h; simp [keepFirstByTitle] at h
  | cons x ts ih =>
    intro seen t h
    simp only [keepFirstByTitle] at h
    by_cases hx : seen.contains (normStr x.name)
    · rw [if_pos hx] at h
      exact ih seen t h
    · rw [if_neg hx] at h
      rcases List.mem_cons.mp h with h | h
      · subst h
        simpa using hx
      · intro hmem
        exact ih _ t h (List.mem_cons_of_mem _ hmem)

lemma keepFirst_nodup (threads : List Thread) :
    ∀ seen, ((keepFirstByTitle threads seen).map (fun t => normStr t.name)).Nodup := by
  induction threads with
  | nil => intro seen; simp [keepFirstByTitle]
  | cons t ts ih =>
    intro seen
    simp only [keepFirstByTitle]
    by_cases h : seen.contains (normStr t.name)
    · rw [if_pos h]; exact ih seen
    · rw [if_neg h]
      simp only [List.map_cons, List.nodup_cons]
      refine ⟨?_, ih _⟩
      intro hmem
      obtain ⟨u, hu, hequ⟩ := List.mem_map.mp hmem
      have hns := keepFirst_not_seen ts _ u hu
      exact hns (by rw [hequ]; exact List.mem_cons_self _ _)

lemma keepFirst_covers (threads : List Thread) :
    ∀ seen t, t ∈ threads → normStr t.name ∉ seen →
      ∃ u ∈ keepFirstByTitle threads seen, normStr u.name = normStr t.name := by
  induction threads with
  | nil => intro seen t h; simp at h
  | cons x ts ih =>
    intro seen t ht hseen
    simp only [keepFirstByTitle]
    by_cases hx : seen.contains (normStr x.name)
    · rw [if_pos hx]
      rcases List.mem_cons.mp ht with h | h
      · subst h; exact absurd (by simpa using hx) hseen
      · exact ih seen t h hseen
    · rw [if_neg hx]
      by_cases heq : normStr t.name = normStr x.name
      · exact ⟨x, List.mem_cons_self _ _, heq.symm⟩
      · rcases List.mem_cons.mp ht with h | h
        · subst h; exact absurd rfl heq
        · obtain ⟨u, hu, hequ⟩ := ih _ t h (by
            intro hmem
            rcases List.mem_cons.mp hmem with h' | h'
            · exact heq h'
            · exact hseen h')
          exact ⟨u, List.mem_cons_of_mem _ hu, hequ⟩

lemma keepFirst_of_nodup (threads : List Thread) :
    ∀ seen, ((threads.map (fun t => normStr t.name)).Nodup) →
      (∀ t ∈ threads, normStr t.name ∉ seen) →
      keepFirstByTitle threads seen = threads := by
  induction threads with
  | nil => intro seen _ _; simp [keepFirstByTitle]
  | cons t ts ih =>
    intro seen hnd hseen
    simp only [List.map_cons, List.nodup_cons] at hnd
    simp only [keepFirstByTitle]
    rw [if_neg (by simpa using hseen t (List.mem_cons_self _ _))]
    congr 1
    refine ih _ hnd.2 ?_
    intro u hu
    intro hmem
    rcases List.mem_cons.mp hmem with h | h
    · exact hnd.1 (List.mem_map.mpr ⟨u, hu, h⟩)
    · exact hseen u (List.mem_cons_of_mem _ hu) h

lemma mem_keepFirst_of_first (h : Thread) (l2 : List Thread) :
    ∀ (l1 : List Thread) (seen : List String), normStr h.name ∉ seen →
      (∀ x ∈ l1, ¬(normStr x.name = normStr h.name)) →
      h ∈ keepFirstByTitle (l1 ++ h :: l2) seen := by
  intro l1
  induction l1 with
  | nil =>
    intro seen hseen _
    simp only [List.nil_append, keepFirstByTitle]
    rw [if_neg (by simpa using hseen)]
    exact List.mem_cons_self _ _
  | cons x l1 ih =>
    intro seen hseen hl1
    simp only [List.cons_append, keepFirstByTitle]
    by_cases hx : seen.contains (normStr x.name)
    · rw [if_pos hx]
      exact ih seen hseen (fun y hy => hl1 y (List.mem_cons_of_mem _ hy))
    · rw [if_neg hx]
      refine List.mem_cons_of_mem _ (ih _ ?_ (fun y hy => hl1 y (List.mem_cons_of_mem _ hy)))
      intro hmem
      rcases List.mem_cons.mp hmem with h' | h'
      · exact hl1 x (List.mem_cons_self _ _) h'.symm
      · exact hseen h'

lemma groupStep_fold_nonempty (rest : List Thread) :
    ∀ m, (∀ p ∈ m, p.2 ≠ []) → ∀ p ∈ rest.foldl groupStep m, p.2 ≠ [] := by
  induction rest with
  | nil => intro m h; exact h
  | cons t ts ih =>
    intro m h
    refine ih (groupStep m t) ?_
    intro p hp
    simp only [groupStep] at hp
    by_cases hany : m.any (fun q => q.1 == normStr t.name) = true
    · rw [if_pos hany] at hp
      obtain ⟨q, hq, hfq⟩ := List.mem_map.mp hp
      by_cases hk : q.1 == normStr t.name
      · rw [if_pos hk] at hfq; subst hfq; simp
      · rw [if_neg hk] at hfq; subst hfq; exact h q hq
    · rw [if_neg hany] at hp
      rcases List.mem_append.mp hp with hp | hp
      · exact h p hp
      · simp only [List.mem_singleton] at hp; subst hp; simp

lemma groupByTitle_nonempty (threads : List Thread) :
    ∀ p ∈ groupByTitle threads, p.2 ≠ [] :=
  groupStep_fold_nonempty threads [] (by simp)

lemma filter_title_length_le_one {l : List Thread}
    (hnd : (l.map (fun t => normStr t.name)).Nodup) (k : String) :
    (l.filter (fun t => normStr t.name == k)).length ≤ 1 := by
  induction l with
  | nil => simp
  | cons t ts ih =>
    simp only [List.map_cons, List.nodup_cons] at hnd
    by_cases hk : (normStr t.name == k) = true
    · have hrest : ts.filter (fun u => normStr u.name == k) = [] := by
        rw [List.filter_eq_nil_iff]
        intro u hu hbeq
        exact hnd.1 (List.mem_map.mpr ⟨u, hu,
          by rw [beq_iff_eq.mp hbeq, beq_iff_eq.mp hk]⟩)
      simp [List.filter_cons, hk, hrest]
    · simp only [List.filter_cons, hk, if_false]
      exact ih hnd.2

lemma duplicateDeletions_eq_nil_of_nodup {threads : List Thread}
    (hnd : (threads.map (fun t => normStr t.name)).Nodup) :
    duplicateDeletions threads = [] := by
  rw [duplicateDeletions, List.flatten_eq_nil_iff]
  intro l hl
  obtain ⟨p, hp, hpl⟩ := List.mem_map.mp hl
  subst hpl
  rw [List.drop_eq_nil_iff]
  have := groupByTitle_eq_filter threads p hp
  rw [this]
  exact filter_title_length_le_one hnd p.1

/-- C4: duplicate removal keeps exactly the first enumerated thread of every
normalized-title group and deletes all the others; surviving titles are
pairwise distinct, no title disappears, and on the spec's concrete example
`["Alpha", "alpha ", " ALPHA", "Beta"]` exactly the first `Alpha` and `Beta`
survive while the other two are deleted. -/
theorem removeDuplicateThreads_spec (threads : List Thread) :
    (∀ p ∈ groupByTitle threads, ∃ h rest, p.2 = h :: rest ∧
      h ∈ (removeDuplicateThreads threads).1 ∧
      ∀ x ∈ rest, x ∈ (removeDuplicateThreads threads).2) ∧
    (((removeDuplicateThreads threads).1.map (fun t => normStr t.name)).Nodup) ∧
    (∀ t ∈ threads, ∃ u ∈ (removeDuplicateThreads threads).1,
      normStr u.name = normStr t.name) ∧
    (removeDuplicateThreads [⟨"Alpha", none⟩, ⟨"alpha ", none⟩, ⟨" ALPHA", none⟩,
        ⟨"Beta", none⟩] =
      ([⟨"Alpha", none⟩, ⟨"Beta", none⟩], [⟨"alpha ", none⟩, ⟨" ALPHA", none⟩])) := by
  refine ⟨?_, keepFirst_nodup threads [], ?_, by decide⟩
  · intro p hp
    have hfil := groupByTitle_eq_filter threads p hp
    have hne := groupByTitle_nonempty threads p hp
    match hfl : p.2 with
    | [] => exact absurd hfl hne
    | h :: rest =>
      refine ⟨h, rest, rfl, ?_, ?_⟩
      · have : threads.filter (fun t => normStr t.name == p.1) = h :: rest := by
          rw [← hfil, hfl]
        obtain ⟨l1, l2, hsplit, hnone, hph, _⟩ := List.filter_eq_cons_iff.mp this
        rw [removeDuplicateThreads, hsplit]
        exact mem_keepFirst_of_first h l2 l1 [] (by simp) (fun x hx hx' => by
          have := hnone x hx
          simp only [beq_iff_eq] at this
          exact this (hx'.trans (beq_iff_eq.mp hph)))
      · intro x hx
        rw [removeDuplicateThreads]
        simp only [duplicateDeletions, List.mem_flatten]
        refine ⟨p.2.drop 1, List.mem_map.mpr ⟨p, hp, rfl⟩, ?_⟩
        rw [hfl]
        simpa using hx
  · intro t ht
    exact keepFirst_covers threads [] t ht (by simp)

/-- C4 witness: on the concrete example, the first `Alpha` thread survives and
the third (` ALPHA`) is deleted, obtained by applying the group clause of
`removeDuplicateThreads_spec` to the `"alpha"` group. -/
theorem removeDuplicateThreads_spec_witness :
    (⟨"Alpha", none⟩ : Thread) ∈
      (removeDuplicateThreads [⟨"Alpha", none⟩, ⟨"alpha ", none⟩, ⟨" ALPHA", none⟩,
        ⟨"Beta", none⟩]).1 ∧
    (⟨" ALPHA", none⟩ : Thread) ∈
      (removeDuplicateThreads [⟨"Alpha", none⟩, ⟨"alpha ", none⟩, ⟨" ALPHA", none⟩,
        ⟨"Beta", none⟩]).2 := by
  obtain ⟨hgrp, -, -, -⟩ := removeDuplicateThreads_spec
    [⟨"Alpha", none⟩, ⟨"alpha ", none⟩, ⟨" ALPHA", none⟩, ⟨"Beta", none⟩]
  obtain ⟨h, rest, hEq, hKeep, hDel⟩ := hgrp
    ("alpha", [⟨"Alpha", none⟩, ⟨"alpha ", none⟩, ⟨" ALPHA", none⟩]) (by decide)
  injection hEq with h1 h2
  subst h1; subst h2
  exact ⟨hKeep, hDel _ (by decide)⟩

/-! ## Theorems: unmatched/stale removal (C1) -/

lemma mapSet_mem {m : List (String × String)} {k v : String} :
    ∀ p ∈ mapSet m k v, p ∈ m ∨ p = (k, v) := by
  intro p hp
  simp only [mapSet] at hp
  by_cases hany : m.any (fun q => q.1 == k) = true
  · rw [if_pos hany] at hp
    obtain ⟨q, hq, hfq⟩ := List.mem_map.mp hp
    by_cases hk : (q.1 == k) = true
    · rw [if_pos hk] at hfq; right; exact hfq.symm
    · rw [if_neg hk] at hfq; left; rw [← hfq]; exact hq
  · rw [if_neg hany] at hp
    rcases List.mem_append.mp hp with hp | hp
    · left; exact hp
    · right; exact List.mem_singleton.mp hp

lemma mapSet_exists_key {m : List (String × String)} {k v : String} (Q : String → Bool) :
    (∃ p ∈ mapSet m k v, Q p.1 = true) ↔ (∃ p ∈ m, Q p.1 = true) ∨ Q k = true := by
  simp only [mapSet]
  by_cases hany : m.any (fun q => q.1 == k) = true
  · rw [if_pos hany]
    constructor
    · rintro ⟨p, hp, hQ⟩
      obtain ⟨q, hq, hfq⟩ := List.mem_map.mp hp
      by_cases hk : (q.1 == k) = true
      · rw [if_pos hk] at hfq
        right
        have hpk : p.1 = k := by rw [← hfq]
        rw [← hpk]
        exact hQ
      · rw [if_neg hk] at hfq
        exact Or.inl ⟨q, hq, by rw [hfq]; exact hQ⟩
    · rintro (⟨p, hp, hQ⟩ | hQ)
      · by_cases hk : (p.1 == k) = true
        · refine ⟨(k, v), List.mem_map.mpr ⟨p, hp, by rw [if_pos hk]⟩, ?_⟩
          show Q k = true
          rw [← beq_iff_eq.mp hk]; exact hQ
        · exact ⟨p, List.mem_map.mpr ⟨p, hp, by rw [if_neg hk]⟩, hQ⟩
      · obtain ⟨q, hq, hk⟩ := List.any_eq_true.mp hany
        refine ⟨(k, v), List.mem_map.mpr ⟨q, hq, by rw [if_pos hk]⟩, hQ⟩
  · rw [if_neg hany]
    constructor
    · rintro ⟨p, hp, hQ⟩
      rcases List.mem_append.mp hp with hp | hp
      · exact Or.inl ⟨p, hp, hQ⟩
      · right; rw [List.mem_singleton.mp hp] at hQ; exact hQ
    · rintro (⟨p, hp, hQ⟩ | hQ)
      · exact ⟨p, List.mem_append_left _ hp, hQ⟩
      · exact ⟨(k, v), List.mem_append_right _ (by simp), hQ⟩

lemma sheetEntries_fold_fresh (now maxD : ℚ) (gIdx tIdx : Nat) :
    ∀ (rows : List Row) (m : List (String × String)),
      (∀ p ∈ m, isEntryTooOld now maxD p.2 = false) →
      ∀ p ∈ rows.foldl (sheetEntriesStep now maxD gIdx tIdx) m,
        isEntryTooOld now maxD p.2 = false := by
  intro rows
  induction rows with
  | nil => intro m hm; exact hm
  | cons r rows ih =>
    intro m hm
    refine ih _ ?_
    intro p hp
    simp only [sheetEntriesStep] at hp
    by_cases he : rowEligible now maxD gIdx tIdx r
    · rw [if_pos he] at hp
      rcases mapSet_mem p hp with h | h
      · exact hm p h
      · rw [h]; exact he.2.2
    · rw [if_neg he] at hp; exact hm p hp

lemma sheetEntries_values_fresh (now maxD : ℚ) (gIdx tIdx : Nat) (rows : List Row) :
    ∀ p ∈ sheetEntries now maxD gIdx tIdx rows, isEntryTooOld now maxD p.2 = false :=
  sheetEntries_fold_fresh now maxD gIdx tIdx rows [] (by simp)

lemma sheetEntries_fold_exists (now maxD : ℚ) (gIdx tIdx : Nat) (Q : String → Bool) :
    ∀ (rows : List Row) (m : List (String × String)),
      ((∃ p ∈ rows.foldl (sheetEntriesStep now maxD gIdx tIdx) m, Q p.1 = true) ↔
        ((∃ p ∈ m, Q p.1 = true) ∨
          ∃ r ∈ rows, rowEligible now maxD gIdx tIdx r ∧
            Q (jsLower (cellTrim r gIdx)) = true)) := by
  intro rows
  induction rows with
  | nil => intro m; simp
  | cons r rows ih =>
    intro m
    rw [List.foldl_cons, ih]
    have hstep : (∃ p ∈ sheetEntriesStep now maxD gIdx tIdx m r, Q p.1 = true) ↔
        ((∃ p ∈ m, Q p.1 = true) ∨
          (rowEligible now maxD gIdx tIdx r ∧ Q (jsLower (cellTrim r gIdx)) = true)) := by
      simp only [sheetEntriesStep]
      by_cases he : rowEligible now maxD gIdx tIdx r
      · rw [if_pos he, mapSet_exists_key]
        simp [he]
      · rw [if_neg he]
        simp [he]
    rw [hstep]
    constructor
    · rintro (h | ⟨r', hr', he', hQ'⟩)
      · rcases h with h | h
        · exact Or.inl h
        · exact Or.inr ⟨r, List.mem_cons_self _ _, h⟩
      · exact Or.inr ⟨r', List.mem_cons_of_mem _ hr', he', hQ'⟩
    · rintro (h | ⟨r', hr', he', hQ'⟩)
      · exact Or.inl (Or.inl h)
      · rcases List.mem_cons.mp hr' with h' | h'
        · subst h'; exact Or.inl (Or.inr ⟨he', hQ'⟩)
        · exact Or.inr ⟨r', h', he', hQ'⟩

lemma sheetEntries_exists_key (now maxD : ℚ) (gIdx tIdx : Nat) (Q : String → Bool)
    (rows : List Row) :
    (∃ p ∈ sheetEntries now maxD gIdx tIdx rows, Q p.1 = true) ↔
      ∃ r ∈ rows, rowEligible now maxD gIdx tIdx r ∧ Q (jsLower (cellTrim r gIdx)) = true := by
  have h := sheetEntries_fold_exists now maxD gIdx tIdx Q rows []
  simpa [sheetEntries] using h

lemma unmatchedDelete_iff (now maxD : ℚ) (entries : List (String × String))
    (hv : ∀ p ∈ entries, isEntryTooOld now maxD p.2 = false) (t : Thread) :
    (unmatchedDelete now maxD entries t = true ↔
      ¬ ∃ p ∈ entries, jsIncludes (normStr t.name) p.1 = true) := by
  have hd : unmatchedDelete now maxD entries t =
      match entries.find? (fun p => jsIncludes (normStr t.name) p.1) with
      | none => true
      | some p => isEntryTooOld now maxD p.2 := rfl
  cases hf : entries.find? (fun p => jsIncludes (normStr t.name) p.1) with
  | none =>
    rw [hd, hf]
    rw [List.find?_eq_none] at hf
    constructor
    · rintro - ⟨p, hp, hQ⟩
      exact hf p hp hQ
    · intro _
      rfl
  | some p =>
    have hp := List.find?_some hf
    have hmem := List.mem_of_find?_eq_some hf
    rw [hd, hf]
    show isEntryTooOld now maxD p.2 = true ↔ _
    rw [hv p hmem]
    constructor
    · intro hfalse
      simp at hfalse
    · intro hne
      exact absurd ⟨p, hmem, hp⟩ hne

/-- C1: in `removeUnmatchedThreads`, an active thread is deleted exactly when
no data row with a truthy guild name and a truthy, not-too-old timestamp has
its trimmed lower-cased guild name contained in the thread's trimmed
lower-cased title, and retained exactly when such a row exists (loose
containment, not exact equality). -/
theorem removeUnmatchedThreads_delete_iff (now maxD : ℚ) (rows : List Row)
    (threads : List Thread) (headers : Row) (gIdx tIdx : Nat)
    (hh : rows.head? = some headers)
    (hg : colIdx headers "Guild Name" = some gIdx)
    (ht : colIdx headers "Timestamp" = some tIdx) :
    ∀ t ∈ threads,
      (t ∈ (removeUnmatchedThreads now maxD rows threads).2 ↔
        ¬ ∃ r ∈ rows.tail, rowEligible now maxD gIdx tIdx r ∧
          jsIncludes (normStr t.name) (jsLower (cellTrim r gIdx)) = true) ∧
      (t ∈ (removeUnmatchedThreads now maxD rows threads).1 ↔
        ∃ r ∈ rows.tail, rowEligible now maxD gIdx tIdx r ∧
          jsIncludes (normStr t.name) (jsLower (cellTrim r gIdx)) = true) := by
  intro t htm
  have hred : removeUnmatchedThreads now maxD rows threads =
      (threads.filter (fun u => !unmatchedDelete now maxD
         (sheetEntries now maxD gIdx tIdx rows.tail) u),
       threads.filter (fun u => unmatchedDelete now maxD
         (sheetEntries now maxD gIdx tIdx rows.tail) u)) := by
    simp only [removeUnmatchedThreads, hh, hg, ht]
  have hiff := unmatchedDelete_iff now maxD (sheetEntries now maxD gIdx tIdx rows.tail)
    (sheetEntries_values_fresh now maxD gIdx tIdx rows.tail) t
  have hex := sheetEntries_exists_key now maxD gIdx tIdx
    (fun k => jsIncludes (normStr t.name) k) rows.tail
  constructor
  · rw [hred]
    simp only [List.mem_filter, htm, true_and]
    rw [hiff, hex]
  · rw [hred]
    simp only [List.mem_filter, htm, true_and, Bool.not_eq_true']
    rw [← Bool.not_eq_true (unmatchedDelete _ _ _ t), hiff, hex]
    exact not_not

/-- C1 witness: the spec's example — with a fresh `stormcallers` row, the
thread `"<Stormcallers> - Casual"` is retained (loose containment) and
`"<Ashbringers> - Casual"` is deleted. -/
theorem removeUnmatchedThreads_delete_iff_witness :
    (⟨"<Ashbringers> - Casual", none⟩ : Thread) ∈
      (removeUnmatchedThreads 1704067200000 14
        [["Guild Name", "Timestamp"], ["stormcallers", "01/01/2024 00:00:00"]]
        [⟨"<Stormcallers> - Casual", none⟩, ⟨"<Ashbringers> - Casual", none⟩]).2 ∧
    (⟨"<Stormcallers> - Casual", none⟩ : Thread) ∈
      (removeUnmatchedThreads 1704067200000 14
        [["Guild Name", "Timestamp"], ["stormcallers", "01/01/2024 00:00:00"]]
        [⟨"<Stormcallers> - Casual", none⟩, ⟨"<Ashbringers> - Casual", none⟩]).1 := by
  have h := removeUnmatchedThreads_delete_iff 1704067200000 14
    [["Guild Name", "Timestamp"], ["stormcallers", "01/01/2024 00:00:00"]]
    [⟨"<Stormcallers> - Casual", none⟩, ⟨"<Ashbringers> - Casual", none⟩]
    ["Guild Name", "Timestamp"] 0 1 rfl rfl rfl
  constructor
  · exact ((h ⟨"<Ashbringers> - Casual", none⟩ (by decide)).1).mpr
      (of_decide_eq_true (by with_unfolding_all rfl))
  · exact ((h ⟨"<Stormcallers> - Casual", none⟩ (by decide)).2).mpr
      (of_decide_eq_true (by with_unfolding_all rfl))

/-! ## Theorems: new-entry posting (C2) and creation error handling (C10) -/

lemma newGuildNames_fold_mem (gIdx : Nat) (names : List String) (g : String) :
    ∀ (rows : List Row) (acc : List String),
      (g ∈ rows.foldl (fun acc r =>
          if cellTrim r gIdx ≠ "" ∧
              ¬ names.any (fun tn => jsIncludes tn (jsLower (cellTrim r gIdx))) then
            acc ++ [cellTrim r gIdx]
          else acc) acc ↔
        g ∈ acc ∨ ∃ r ∈ rows, cellTrim r gIdx = g ∧ g ≠ "" ∧
          ∀ tn ∈ names, jsIncludes tn (jsLower g) = false) := by
  intro rows
  induction rows with
  | nil => intro acc; simp
  | cons r rs ih =>
    intro acc
    rw [List.foldl_cons, ih]
    by_cases hc : cellTrim r gIdx ≠ "" ∧
        ¬ names.any (fun tn => jsIncludes tn (jsLower (cellTrim r gIdx))) = true
    · rw [if_pos hc]
      constructor
      · rintro (hg | hex)
        · rcases List.mem_append.mp hg with h | h
          · exact Or.inl h
          · have he : g = cellTrim r gIdx := List.mem_singleton.mp h
            refine Or.inr ⟨r, List.mem_cons_self _ _, he.symm, by rw [he]; exact hc.1, ?_⟩
            intro tn htn
            rw [he]
            exact Bool.eq_false_iff.mpr
              (List.any_eq_false.mp (Bool.eq_false_iff.mpr hc.2) tn htn)
        · obtain ⟨r', hr', h1, h2, h3⟩ := hex
          exact Or.inr ⟨r', List.mem_cons_of_mem _ hr', h1, h2, h3⟩
      · rintro (h | ⟨r', hr', h1, h2, h3⟩)
        · exact Or.inl (List.mem_append_left _ h)
        · rcases List.mem_cons.mp hr' with h' | h'
          · subst h'
            exact Or.inl (List.mem_append_right _ (by simp [h1]))
          · exact Or.inr ⟨r', h', h1, h2, h3⟩
    · rw [if_neg hc]
      constructor
      · rintro (h | hex)
        · exact Or.inl h
        · obtain ⟨r', hr', h1, h2, h3⟩ := hex
          exact Or.inr ⟨r', List.mem_cons_of_mem _ hr', h1, h2, h3⟩
      · rintro (h | ⟨r', hr', h1, h2, h3⟩)
        · exact Or.inl h
        · rcases List.mem_cons.mp hr' with h' | h'
          · subst h'
            exfalso
            refine hc ⟨by rw [h1]; exact h2, ?_⟩
            intro hany
            obtain ⟨tn, htn, hinc⟩ := List.any_eq_true.mp hany
            rw [h1] at hinc
            rw [h3 tn htn] at hinc
            exact Bool.false_ne_true hinc
          · exact Or.inr ⟨r', h', h1, h2, h3⟩

lemma postLoop_attempts_bound (now : Int) (maxD : ℚ) (isLN : Char → Bool) (cap : Nat)
    (gIdx fIdx tIdx sIdx : Nat) (headers : Row) (newNames : List String) :
    ∀ (rows : List Row) (outs : List CreateOutcome) (st : PostState),
      (postLoop now maxD isLN cap gIdx fIdx tIdx sIdx headers newNames
          rows outs st).attempts.length ≤
        st.attempts.length + (cap - st.posts) := by
  intro rows
  induction rows with
  | nil => intro outs st; simp [postLoop]
  | cons r rs ih =>
    intro outs st
    rw [postLoop]
    split
    next h1 => exact Nat.le_add_right _ _
    next h1 =>
      split
      next h2 => exact ih outs st
      next h2 =>
        split
        next heq => exact Nat.le_add_right _ _
        next tsRaw heq =>
          split
          next h3 => exact ih outs st
          next h3 =>
            split
            next hch => exact ih outs st
            next ch hch =>
              split
              next h4 =>
                split
                next ho =>
                  dsimp only
                  simp only [List.length_append, List.length_singleton]
                  omega
                next ho =>
                  refine le_trans (ih (nextOutcome outs).2 _) ?_
                  dsimp only
                  simp only [List.length_append, List.length_singleton]
                  omega
                next ho =>
                  refine le_trans (ih (nextOutcome outs).2 _) ?_
                  dsimp only
                  simp only [List.length_append, List.length_singleton]
                  omega
              next h4 => exact Nat.le_add_right _ _

lemma postLoop_attempts_from (now : Int) (maxD : ℚ) (isLN : Char → Bool) (cap : Nat)
    (gIdx fIdx tIdx sIdx : Nat) (headers : Row) (newNames : List String) :
    ∀ (rows : List Row) (outs : List CreateOutcome) (st : PostState),
      ∀ a ∈ (postLoop now maxD isLN cap gIdx fIdx tIdx sIdx headers newNames
          rows outs st).attempts,
        a ∈ st.attempts ∨
        ∃ r ∈ rows, cellTrim r gIdx = a.2.1 ∧ cellTrim r sIdx = a.2.2 ∧
          chanOf (cellTrim r fIdx) = some a.1 ∧ a.2.1 ∈ newNames ∧
          isEntryTooOld now maxD (cellTrim r tIdx) = false := by
  intro rows
  induction rows with
  | nil => intro outs st a ha; exact Or.inl ha
  | cons r rs ih =>
    intro outs st a
    rw [postLoop]
    have hlift : ∀ a, (a ∈ st.attempts ∨ ∃ r' ∈ rs, cellTrim r' gIdx = a.2.1 ∧
        cellTrim r' sIdx = a.2.2 ∧ chanOf (cellTrim r' fIdx) = some a.1 ∧
        a.2.1 ∈ newNames ∧ isEntryTooOld now maxD (cellTrim r' tIdx) = false) →
        (a ∈ st.attempts ∨ ∃ r' ∈ r :: rs, cellTrim r' gIdx = a.2.1 ∧
          cellTrim r' sIdx = a.2.2 ∧ chanOf (cellTrim r' fIdx) = some a.1 ∧
          a.2.1 ∈ newNames ∧ isEntryTooOld now maxD (cellTrim r' tIdx) = false) := by
      rintro a (h | ⟨r', hr', hrest⟩)
      · exact Or.inl h
      · exact Or.inr ⟨r', List.mem_cons_of_mem _ hr', hrest⟩
    split
    next h1 => exact fun ha => Or.inl ha
    next h1 =>
      split
      next h2 => exact fun ha => hlift a (ih outs st a ha)
      next h2 =>
        split
        next heq => exact fun ha => Or.inl ha
        next tsRaw heq =>
          have hct : cellTrim r tIdx = jsTrim tsRaw := by
            simp [cellTrim, heq]
          split
          next h3 => exact fun ha => hlift a (ih outs st a ha)
          next h3 =>
            split
            next hch => exact fun ha => hlift a (ih outs st a ha)
            next ch hch =>
              have hmem : cellTrim r gIdx ∈ newNames ∧ cellTrim r gIdx ≠ "" := by
                rw [not_or] at h2
                exact ⟨not_not.mp h2.2, h2.1⟩
              have hfresh : isEntryTooOld now maxD (cellTrim r tIdx) = false := by
                rw [hct]
                exact Bool.eq_false_iff.mpr h3
              have hattempt : ∀ b, b ∈ st.attempts ++
                  [(ch, cellTrim r gIdx, cellTrim r sIdx)] →
                  b ∈ st.attempts ∨ ∃ r' ∈ r :: rs, cellTrim r' gIdx = b.2.1 ∧
                    cellTrim r' sIdx = b.2.2 ∧ chanOf (cellTrim r' fIdx) = some b.1 ∧
                    b.2.1 ∈ newNames ∧
                    isEntryTooOld now maxD (cellTrim r' tIdx) = false := by
                intro b hb
                rcases List.mem_append.mp hb with hb | hb
                · exact Or.inl hb
                · have hbe := List.mem_singleton.mp hb
                  subst hbe
                  exact Or.inr ⟨r, List.mem_cons_self _ _, rfl, rfl, hch, hmem.1, hfresh⟩
              split
              next h4 =>
                split
                next ho => exact fun ha => hattempt a ha
                next ho =>
                  intro ha
                  rcases ih (nextOutcome outs).2 _ a ha with h | ⟨r', hr', hrest⟩
                  · exact hattempt a h
                  · exact Or.inr ⟨r', List.mem_cons_of_mem _ hr', hrest⟩
                next ho =>
                  intro ha
                  rcases ih (nextOutcome outs).2 _ a ha with h | ⟨r', hr', hrest⟩
                  · exact hattempt a h
                  · exact Or.inr ⟨r', List.mem_cons_of_mem _ hr', hrest⟩
              next h4 => exact fun ha => Or.inl ha

lemma nextOutcome_no_timeout {outs : List CreateOutcome}
    (h : CreateOutcome.callerTimeout ∉ outs) :
    (nextOutcome outs).1 ≠ CreateOutcome.callerTimeout ∧
    CreateOutcome.callerTimeout ∉ (nextOutcome outs).2 := by
  cases outs with
  | nil => simp [nextOutcome]
  | cons o os =>
    simp only [List.mem_cons, not_or] at h
    exact ⟨fun he => h.1 he.symm, h.2⟩

lemma postLoop_outs_indep (now : Int) (maxD : ℚ) (isLN : Char → Bool) (cap : Nat)
    (gIdx fIdx tIdx sIdx : Nat) (headers : Row) (newNames : List String) :
    ∀ (rows : List Row) (outs₁ outs₂ : List CreateOutcome) (st₁ st₂ : PostState),
      CreateOutcome.callerTimeout ∉ outs₁ → CreateOutcome.callerTimeout ∉ outs₂ →
      st₁.attempts = st₂.attempts → st₁.posts = st₂.posts → st₁.aborted = st₂.aborted →
      (postLoop now maxD isLN cap gIdx fIdx tIdx sIdx headers newNames
          rows outs₁ st₁).attempts =
        (postLoop now maxD isLN cap gIdx fIdx tIdx sIdx headers newNames
          rows outs₂ st₂).attempts ∧
      (postLoop now maxD isLN cap gIdx fIdx tIdx sIdx headers newNames
          rows outs₁ st₁).posts =
        (postLoop now maxD isLN cap gIdx fIdx tIdx sIdx headers newNames
          rows outs₂ st₂).posts ∧
      (postLoop now maxD isLN cap gIdx fIdx tIdx sIdx headers newNames
          rows outs₁ st₁).aborted =
        (postLoop now maxD isLN cap gIdx fIdx tIdx sIdx headers newNames
          rows outs₂ st₂).aborted := by
  intro rows
  induction rows with
  | nil =>
    intro outs₁ outs₂ st₁ st₂ _ _ ha hp hb
    simp only [postLoop]
    exact ⟨ha, hp, hb⟩
  | cons r rs ih =>
    intro outs₁ outs₂ st₁ st₂ hf₁ hf₂ ha hp hb
    rw [postLoop, postLoop]
    by_cases h1 : st₁.posts ≥ cap
    · have h1' : st₂.posts ≥ cap := hp ▸ h1
      rw [if_pos h1, if_pos h1']
      exact ⟨ha, hp, hb⟩
    · have h1' : ¬ st₂.posts ≥ cap := hp ▸ h1
      rw [if_neg h1, if_neg h1']
      by_cases h2 : cellTrim r gIdx = "" ∨ cellTrim r gIdx ∉ newNames
      · rw [if_pos h2, if_pos h2]
        exact ih outs₁ outs₂ st₁ st₂ hf₁ hf₂ ha hp hb
      · rw [if_neg h2, if_neg h2]
        cases heq : cell r tIdx with
        | none =>
          dsimp only
          exact ⟨ha, hp, rfl⟩
        | some tsRaw =>
          dsimp only
          by_cases h3 : isEntryTooOld now maxD (jsTrim tsRaw) = true
          · rw [if_pos h3, if_pos h3]
            exact ih outs₁ outs₂ st₁ st₂ hf₁ hf₂ ha hp hb
          · rw [if_neg h3, if_neg h3]
            cases hch : chanOf (cellTrim r fIdx) with
            | none =>
              dsimp only
              exact ih outs₁ outs₂ st₁ st₂ hf₁ hf₂ ha hp hb
            | some ch =>
              dsimp only
              by_cases h4 : msgContentOk headers r = true
              · rw [if_pos h4, if_pos h4]
                obtain ⟨hn₁, hn₁'⟩ := nextOutcome_no_timeout hf₁
                obtain ⟨hn₂, hn₂'⟩ := nextOutcome_no_timeout hf₂
                cases ho₁ : (nextOutcome outs₁).1 with
                | callerTimeout => exact absurd ho₁ hn₁
                | ok =>
                  cases ho₂ : (nextOutcome outs₂).1 with
                  | callerTimeout => exact absurd ho₂ hn₂
                  | ok =>
                    exact ih _ _ _ _ hn₁' hn₂' (by dsimp only; rw [ha])
                      (by dsimp only; rw [hp]) (by dsimp only; rw [hb])
                  | fail =>
                    exact ih _ _ _ _ hn₁' hn₂' (by dsimp only; rw [ha])
                      (by dsimp only; rw [hp]) (by dsimp only; rw [hb])
                | fail =>
                  cases ho₂ : (nextOutcome outs₂).1 with
                  | callerTimeout => exact absurd ho₂ hn₂
                  | ok =>
                    exact ih _ _ _ _ hn₁' hn₂' (by dsimp only; rw [ha])
                      (by dsimp only; rw [hp]) (by dsimp only; rw [hb])
                  | fail =>
                    exact ih _ _ _ _ hn₁' hn₂' (by dsimp only; rw [ha])
                      (by dsimp only; rw [hp]) (by dsimp only; rw [hb])
              · rw [if_neg h4, if_neg h4]
                dsimp only
                exact ⟨ha, hp, rfl⟩

/-- C2: in one run of `postNewEntries`, (i) a guild name is collected as new
exactly when some data row carries it and no existing thread title in either
channel contains its lower-cased form; (ii) the number of thread-creation
calls is at most `MAX_NEW_THREADS_PER_CYCLE || 10`; (iii) every creation call
comes from a data row whose guild name is new, whose entry is not too old, and
whose faction routed it to the matching channel (other factions are skipped);
and (iv) on 15 fresh unrepresented rows with the default cap, exactly 10
creation calls occur. -/
theorem postNewEntries_spec (now : Int) (maxD : ℚ) (isLN : Char → Bool)
    (capCfg : Option Nat) (rows : List Row) (outs : List CreateOutcome) (s : TwoChan)
    (headers : Row) (fIdx gIdx tIdx sIdx : Nat)
    (hh : rows.head? = some headers)
    (hf : colIdx headers "Faction" = some fIdx)
    (hg : colIdx headers "Guild Name" = some gIdx)
    (ht : colIdx headers "Timestamp" = some tIdx)
    (hs : colIdx headers "Guild Type" = some sIdx) :
    (∀ g, g ∈ newGuildNames gIdx (s.alliance.map (fun t => normStr t.name) ++
        s.horde.map (fun t => normStr t.name)) rows.tail ↔
      ∃ r ∈ rows.tail, cellTrim r gIdx = g ∧ g ≠ "" ∧
        ∀ tn ∈ s.alliance.map (fun t => normStr t.name) ++
            s.horde.map (fun t => normStr t.name),
          jsIncludes tn (jsLower g) = false) ∧
    ((postNewEntries now maxD isLN capCfg rows outs s).attempts.length ≤
      capDefault capCfg) ∧
    (∀ a ∈ (postNewEntries now maxD isLN capCfg rows outs s).attempts,
      ∃ r ∈ rows.tail, cellTrim r gIdx = a.2.1 ∧ cellTrim r sIdx = a.2.2 ∧
        chanOf (cellTrim r fIdx) = some a.1 ∧
        a.2.1 ∈ newGuildNames gIdx (s.alliance.map (fun t => normStr t.name) ++
          s.horde.map (fun t => normStr t.name)) rows.tail ∧
        isEntryTooOld now maxD (cellTrim r tIdx) = false) ∧
    ((postNewEntries 1704067200000 14 isLN none
        (["Guild Name", "Faction", "Timestamp", "Guild Type"] ::
          (List.range 15).map (fun i =>
            ["Guild" ++ toString i, "Alliance", "01/01/2024 00:00:00", "Raid"]))
        [] ⟨[], []⟩).attempts.length = 10) := by
  have hred : postNewEntries now maxD isLN capCfg rows outs s =
      postLoop now maxD isLN (capDefault capCfg) gIdx fIdx tIdx sIdx headers
        (newGuildNames gIdx (s.alliance.map (fun t => normStr t.name) ++
          s.horde.map (fun t => normStr t.name)) rows.tail)
        rows.tail outs ⟨s, [], 0, false⟩ := by
    simp only [postNewEntries, hh, hf, hg, ht, hs]
  refine ⟨?_, ?_, ?_, ?_⟩
  · intro g
    have h := newGuildNames_fold_mem gIdx (s.alliance.map (fun t => normStr t.name) ++
      s.horde.map (fun t => normStr t.name)) g rows.tail []
    simpa [newGuildNames] using h
  · rw [hred]
    have h := postLoop_attempts_bound now maxD isLN (capDefault capCfg) gIdx fIdx tIdx
      sIdx headers (newGuildNames gIdx (s.alliance.map (fun t => normStr t.name) ++
        s.horde.map (fun t => normStr t.name)) rows.tail) rows.tail outs ⟨s, [], 0, false⟩
    simpa using h
  · rw [hred]
    intro a ha
    have h := postLoop_attempts_from now maxD isLN (capDefault capCfg) gIdx fIdx tIdx
      sIdx headers (newGuildNames gIdx (s.alliance.map (fun t => normStr t.name) ++
        s.horde.map (fun t => normStr t.name)) rows.tail) rows.tail outs
      ⟨s, [], 0, false⟩ a ha
    rcases h with h | h
    · exact absurd h (List.not_mem_nil a)
    · exact h
  · with_unfolding_all rfl

/-- C2 witness: on a concrete sheet with one fresh Alliance row and empty
channels, the creation-call count respects the default cap. -/
theorem postNewEntries_spec_witness :
    (postNewEntries 1704067200000 14 (fun c => c.isAlpha || c.isDigit) none
      [["Guild Name", "Faction", "Timestamp", "Guild Type"],
       ["Ashkandi", "Alliance", "01/01/2024 00:00:00", "Raid"]]
      [] ⟨[], []⟩).attempts.length ≤ 10 := by
  have h := postNewEntries_spec 1704067200000 14 (fun c => c.isAlpha || c.isDigit) none
    [["Guild Name", "Faction", "Timestamp", "Guild Type"],
     ["Ashkandi", "Alliance", "01/01/2024 00:00:00", "Raid"]]
    [] ⟨[], []⟩ ["Guild Name", "Faction", "Timestamp", "Guild Type"]
    1 0 2 3 rfl rfl rfl rfl rfl
  exact h.2.1

/-- C10: `createGuildRecruitmentThread` never rejects — its catch-all turns
every inner failure (error or its own 15-second timeout) into a resolved
`undefined` — and therefore, as long as the caller's own 10-second race does
not fire, `postNewEntries` performs the same creation calls, increments its
counter identically and never reaches its error/timeout branches regardless of
whether the inner creations succeed or fail. -/
theorem createThread_never_rejects (race : Except CreateFail Thread)
    (now : Int) (maxD : ℚ) (isLN : Char → Bool) (capCfg : Option Nat)
    (rows : List Row) (outs : List CreateOutcome) (s : TwoChan)
    (hout : CreateOutcome.callerTimeout ∉ outs) :
    (createGuildRecruitmentThreadM race = Except.ok (match race with
      | .ok t => some t
      | .error _ => none)) ∧
    ((postNewEntries now maxD isLN capCfg rows outs s).attempts =
      (postNewEntries now maxD isLN capCfg rows [] s).attempts ∧
     (postNewEntries now maxD isLN capCfg rows outs s).posts =
      (postNewEntries now maxD isLN capCfg rows [] s).posts ∧
     (postNewEntries now maxD isLN capCfg rows outs s).aborted =
      (postNewEntries now maxD isLN capCfg rows [] s).aborted) := by
  constructor
  · cases race with
    | ok t => rfl
    | error e => rfl
  · rw [postNewEntries, postNewEntries]
    cases rows.head? with
    | none => exact ⟨rfl, rfl, rfl⟩
    | some headers =>
      dsimp only
      cases colIdx headers "Faction" with
      | none => exact ⟨rfl, rfl, rfl⟩
      | some fIdx =>
        cases colIdx headers "Guild Name" with
        | none => exact ⟨rfl, rfl, rfl⟩
        | some gIdx =>
          cases colIdx headers "Timestamp" with
          | none => exact ⟨rfl, rfl, rfl⟩
          | some tIdx =>
            cases colIdx headers "Guild Type" with
            | none => exact ⟨rfl, rfl, rfl⟩
            | some sIdx =>
              exact postLoop_outs_indep now maxD isLN (capDefault capCfg) gIdx fIdx
                tIdx sIdx headers _ rows.tail outs [] _ _ hout
                (List.not_mem_nil _) rfl rfl rfl

/-- C10 witness: a failed inner creation still counts as a post — the counter
on a concrete one-row sheet equals the all-success counter. -/
theorem createThread_never_rejects_witness :
    createGuildRecruitmentThreadM (Except.error CreateFail.innerTimeout) =
      Except.ok none ∧
    (postNewEntries 1704067200000 14 (fun c => c.isAlpha) none
      [["Guild Name", "Faction", "Timestamp", "Guild Type"],
       ["Ashkandi", "Alliance", "01/01/2024 00:00:00", "Raid"]]
      [CreateOutcome.fail] ⟨[], []⟩).posts =
    (postNewEntries 1704067200000 14 (fun c => c.isAlpha) none
      [["Guild Name", "Faction", "Timestamp", "Guild Type"],
       ["Ashkandi", "Alliance", "01/01/2024 00:00:00", "Raid"]]
      [] ⟨[], []⟩).posts := by
  have h := createThread_never_rejects (Except.error CreateFail.innerTimeout)
    1704067200000 14 (fun c => c.isAlpha) none
    [["Guild Name", "Faction", "Timestamp", "Guild Type"],
     ["Ashkandi", "Alliance", "01/01/2024 00:00:00", "Raid"]]
    [CreateOutcome.fail] ⟨[], []⟩ (by decide)
  exact ⟨h.1, h.2.2.1⟩

/-! ## Theorems: oldest-thread repost (C3) -/

lemma jsLower_eq_empty {s : String} : jsLower s = "" ↔ s = "" := by
  constructor
  · intro h
    have hd : (jsLower s).data = [] := by rw [h]
    simp only [jsLower] at hd
    have : s.data = [] := by simpa using hd
    cases s
    simp only [String.ext_iff]
    simpa using this
  · intro h; rw [h]; rfl

lemma repostMatchRow_some {gIdx : Nat} {rows : List Row} {t : Thread} {r : Row}
    (h : repostMatchRow gIdx rows t = some r) :
    jsLower (cellTrim r gIdx) ≠ "" ∧
    jsIncludes (normStr t.name) (jsLower (cellTrim r gIdx)) = true ∧ r ∈ rows := by
  have hp := List.find?_some h
  have hm := List.mem_of_find?_eq_some h
  simp only [Bool.and_eq_true, decide_eq_true_eq] at hp
  exact ⟨hp.1, hp.2, hm⟩

lemma repostPick_all_skip (now : Int) (maxD : ℚ) (gIdx ti : Nat) (rows : List Row) :
    ∀ l : List Thread,
      (∀ t ∈ l, ∀ r, repostMatchRow gIdx rows t = some r → cell r ti ≠ none) →
      (∀ t ∈ l, repostEligibleB now maxD gIdx ti rows t = false) →
      repostPick now maxD gIdx (some ti) rows l = .missing := by
  intro l
  induction l with
  | nil => intro _ _; rfl
  | cons t ts ih =>
    intro hclean helig
    rw [repostPick]
    cases hm : repostMatchRow gIdx rows t with
    | none =>
      exact ih (fun u hu => hclean u (List.mem_cons_of_mem _ hu))
        (fun u hu => helig u (List.mem_cons_of_mem _ hu))
    | some r =>
      dsimp only
      cases hc : cell r ti with
      | none => exact absurd hc (hclean t (List.mem_cons_self _ _) r hm)
      | some c =>
        have he := helig t (List.mem_cons_self _ _)
        simp only [repostEligibleB, hm, hc, Bool.not_eq_false'] at he
        dsimp only
        rw [if_pos he]
        exact ih (fun u hu => hclean u (List.mem_cons_of_mem _ hu))
          (fun u hu => helig u (List.mem_cons_of_mem _ hu))

lemma repostPick_first_eligible (now : Int) (maxD : ℚ) (gIdx ti : Nat) (rows : List Row) :
    ∀ (l1 : List Thread) (t : Thread) (l2 : List Thread),
      (∀ u ∈ l1, ∀ r, repostMatchRow gIdx rows u = some r → cell r ti ≠ none) →
      (∀ u ∈ l1, repostEligibleB now maxD gIdx ti rows u = false) →
      repostEligibleB now maxD gIdx ti rows t = true →
      ∃ r, repostMatchRow gIdx rows t = some r ∧
        repostPick now maxD gIdx (some ti) rows (l1 ++ t :: l2) = .found t r := by
  intro l1
  induction l1 with
  | nil =>
    intro t l2 _ _ he
    rw [repostEligibleB] at he
    cases hm : repostMatchRow gIdx rows t with
    | none => rw [hm] at he; exact absurd he Bool.false_ne_true
    | some r =>
      rw [hm] at he
      dsimp only at he
      cases hc : cell r ti with
      | none => rw [hc] at he; exact absurd he Bool.false_ne_true
      | some c =>
        rw [hc] at he
        dsimp only at he
        rw [Bool.not_eq_eq_eq_not, Bool.not_true] at he
        refine ⟨r, rfl, ?_⟩
        rw [List.nil_append, repostPick, hm]
        dsimp only
        rw [hc]
        dsimp only
        rw [if_neg (fun hcon => Bool.false_ne_true (he ▸ hcon))]
  | cons u l1 ih =>
    intro t l2 hclean helig he
    obtain ⟨r, hm, hpick⟩ := ih t l2
      (fun v hv => hclean v (List.mem_cons_of_mem _ hv))
      (fun v hv => helig v (List.mem_cons_of_mem _ hv)) he
    refine ⟨r, hm, ?_⟩
    rw [List.cons_append, repostPick]
    cases hmu : repostMatchRow gIdx rows u with
    | none => exact hpick
    | some ru =>
      dsimp only
      cases hcu : cell ru ti with
      | none => exact absurd hcu (hclean u (List.mem_cons_self _ _) ru hmu)
      | some cu =>
        have heu := helig u (List.mem_cons_self _ _)
        simp only [repostEligibleB, hmu, hcu, Bool.not_eq_false'] at heu
        dsimp only
        rw [if_pos heu]
        exact hpick

/-- C3: per channel, the repost candidates are exactly the threads at or past
the age threshold sorted oldest-first by creation time; at most one repost
happens per channel per cycle; if no candidate has a fresh matching row
nothing is reposted; and the first candidate (in sorted order) with a fresh
matching row is deleted and recreated with freshly rendered content under the
derived `"<GuildName> - Scope"` title of its matching row. -/
theorem repostOldestThread_spec (now : Int) (limitH maxD : ℚ) (isLN : Char → Bool)
    (rows : List Row) (threads : List Thread) (headers : Row) (gIdx tIdx : Nat)
    (hh : rows.head? = some headers)
    (hg : colIdx headers "Guild Name" = some gIdx)
    (ht : colIdx headers "Timestamp" = some tIdx)
    (hclean : ∀ t ∈ repostCandidates now limitH threads, ∀ r,
      repostMatchRow gIdx rows.tail t = some r → cell r tIdx ≠ none) :
    ((repostCandidates now limitH threads).Perm
      (threads.filter (needsRepost now limitH))) ∧
    ((repostCandidates now limitH threads).Pairwise
      (fun a b => a.createdAt.getD 0 ≤ b.createdAt.getD 0)) ∧
    ((repostChannel now limitH maxD isLN rows threads).deleted.length ≤ 1 ∧
     (repostChannel now limitH maxD isLN rows threads).created.length ≤ 1) ∧
    ((∀ t ∈ repostCandidates now limitH threads,
        repostEligibleB now maxD gIdx tIdx rows.tail t = false) →
      (repostChannel now limitH maxD isLN rows threads).deleted = [] ∧
      (repostChannel now limitH maxD isLN rows threads).created = []) ∧
    (∀ l1 t l2, repostCandidates now limitH threads = l1 ++ t :: l2 →
      (∀ u ∈ l1, repostEligibleB now maxD gIdx tIdx rows.tail u = false) →
      repostEligibleB now maxD gIdx tIdx rows.tail t = true →
      ∃ r, repostMatchRow gIdx rows.tail t = some r ∧
        (repostChannel now limitH maxD isLN rows threads).deleted = [t] ∧
        (msgContentOk headers r = true →
          ∀ si, colIdx headers "Guild Type" = some si → ∀ c, cell r si = some c →
          (repostChannel now limitH maxD isLN rows threads).created =
            [⟨createThreadTitle isLN (cellTrim r gIdx) (jsTrim c), some now⟩])) := by
  have hred : repostChannel now limitH maxD isLN rows threads =
      (match repostPick now maxD gIdx (colIdx headers "Timestamp") rows.tail
          (repostCandidates now limitH threads) with
       | .missing => ⟨threads, [], [], false⟩
       | .aborted => ⟨threads, [], [], true⟩
       | .found t r =>
         ⟨threads.erase t ++ (handleThreadRepostingCreate now isLN headers r).toList,
          [t], (handleThreadRepostingCreate now isLN headers r).toList, false⟩) := by
    simp only [repostChannel, hh, hg]
  refine ⟨List.mergeSort_perm _ _, ?_, ?_, ?_, ?_⟩
  · have hs := @List.sorted_mergeSort Thread byCreated
      (fun a b c hab hbc => by
        simp only [byCreated, decide_eq_true_eq] at hab hbc ⊢
        omega)
      (fun a b => by
        simp only [byCreated]
        rcases Int.le_total (a.createdAt.getD 0) (b.createdAt.getD 0) with h | h
        · simp [h]
        · simp [h])
      (threads.filter (needsRepost now limitH))
    refine List.Pairwise.imp ?_ hs
    intro a b hab
    simpa [byCreated] using hab
  · rw [hred]
    cases hp : repostPick now maxD gIdx (colIdx headers "Timestamp") rows.tail
        (repostCandidates now limitH threads) with
    | missing => exact ⟨by simp, by simp⟩
    | aborted => exact ⟨by simp, by simp⟩
    | found t r =>
      refine ⟨by simp, ?_⟩
      dsimp only
      cases handleThreadRepostingCreate now isLN headers r <;> simp [Option.toList]
  · intro helig
    have hpick := repostPick_all_skip now maxD gIdx tIdx rows.tail
      (repostCandidates now limitH threads) hclean helig
    rw [hred, ht, hpick]
    exact ⟨rfl, rfl⟩
  · intro l1 t l2 hsplit h1 helig
    obtain ⟨r, hm, hpick⟩ := repostPick_first_eligible now maxD gIdx tIdx rows.tail l1 t l2
      (fun u hu ru hru => hclean u (by rw [hsplit]; exact List.mem_append_left _ hu) ru hru)
      h1 helig
    refine ⟨r, hm, ?_⟩
    rw [hred, ht, hsplit, hpick]
    refine ⟨rfl, ?_⟩
    intro hmsg si hsi c hc
    have hne : cellTrim r gIdx ≠ "" := by
      intro h
      exact (repostMatchRow_some hm).1 (by rw [h]; rfl)
    dsimp only
    simp only [handleThreadRepostingCreate, hmsg, if_true, hg, hsi, hc, hne,
      Option.map_some]
    simp [Option.toList]

/-- C3 witness: a concrete over-age thread with a fresh matching row is
deleted and recreated under its derived title with a fresh creation time. -/
theorem repostOldestThread_spec_witness :
    (repostChannel 1704067200000 24 14 (fun c => c.isAlpha || c.isDigit)
      [["Guild Name", "Timestamp", "Guild Type"],
       ["Stormcallers", "01/01/2024 00:00:00", "Raid"]]
      [⟨"<Stormcallers> - Raid", some 0⟩]).deleted =
      [⟨"<Stormcallers> - Raid", some 0⟩] ∧
    (repostChannel 1704067200000 24 14 (fun c => c.isAlpha || c.isDigit)
      [["Guild Name", "Timestamp", "Guild Type"],
       ["Stormcallers", "01/01/2024 00:00:00", "Raid"]]
      [⟨"<Stormcallers> - Raid", some 0⟩]).created =
      [⟨"<Stormcallers> - Raid", some 1704067200000⟩] := by
  have hcand : repostCandidates 1704067200000 24 [⟨"<Stormcallers> - Raid", some 0⟩] =
      [⟨"<Stormcallers> - Raid", some 0⟩] := by with_unfolding_all rfl
  have hmatch : repostMatchRow 0 [["Stormcallers", "01/01/2024 00:00:00", "Raid"]]
      ⟨"<Stormcallers> - Raid", some 0⟩ =
      some ["Stormcallers", "01/01/2024 00:00:00", "Raid"] := by
    with_unfolding_all rfl
  have hclean : ∀ t ∈ repostCandidates 1704067200000 24
        [⟨"<Stormcallers> - Raid", some 0⟩], ∀ r,
      repostMatchRow 0 [["Stormcallers", "01/01/2024 00:00:00", "Raid"]] t = some r →
      cell r 1 ≠ none := by
    intro t htm r hmr
    rw [hcand] at htm
    rw [List.mem_singleton.mp htm] at hmr
    rw [hmatch] at hmr
    rw [← Option.some.inj hmr]
    simp [cell]
  have h := repostOldestThread_spec 1704067200000 24 14 (fun c => c.isAlpha || c.isDigit)
    [["Guild Name", "Timestamp", "Guild Type"],
     ["Stormcallers", "01/01/2024 00:00:00", "Raid"]]
    [⟨"<Stormcallers> - Raid", some 0⟩]
    ["Guild Name", "Timestamp", "Guild Type"] 0 1 rfl rfl rfl hclean
  obtain ⟨-, -, -, -, h5⟩ := h
  obtain ⟨r, hmr, hdel, hcre⟩ := h5 [] ⟨"<Stormcallers> - Raid", some 0⟩ []
    (by rw [hcand]; rfl)
    (by intro u hu; simp at hu)
    (by with_unfolding_all rfl)
  have hr : r = ["Stormcallers", "01/01/2024 00:00:00", "Raid"] := by
    simp only [List.tail_cons] at hmr
    rw [hmatch] at hmr
    exact (Option.some.inj hmr).symm
  subst hr
  refine ⟨hdel, ?_⟩
  rw [hcre (by with_unfolding_all rfl) 2 rfl "Raid" rfl]
  with_unfolding_all rfl

/-! ## Theorems: similar-name alerts (C9) -/

lemma pairsAfter_mem {α : Type} : ∀ (l : List α) (p : α × α),
    p ∈ pairsAfter l → p.1 ∈ l ∧ p.2 ∈ l := by
  intro l
  induction l with
  | nil => intro p h; simp [pairsAfter] at h
  | cons x xs ih =>
    intro p h
    simp only [pairsAfter, List.mem_append] at h
    rcases h with h | h
    · obtain ⟨y, hy, he⟩ := List.mem_map.mp h
      rw [← he]
      exact ⟨List.mem_cons_self _ _, List.mem_cons_of_mem _ hy⟩
    · have hm := ih p h
      exact ⟨List.mem_cons_of_mem _ hm.1, List.mem_cons_of_mem _ hm.2⟩

lemma addCluster_inv (Q : String → Thread → Prop) {m : List (String × List Thread)}
    {k : String} {t : Thread}
    (hm : ∀ p ∈ m, ∀ u ∈ p.2, Q p.1 u) (hk : Q k t) :
    ∀ p ∈ addCluster m k t, ∀ u ∈ p.2, Q p.1 u := by
  intro p hp
  simp only [addCluster] at hp
  by_cases hany : m.any (fun q => q.1 == k) = true
  · rw [if_pos hany] at hp
    obtain ⟨q, hq, hfq⟩ := List.mem_map.mp hp
    by_cases hkq : (q.1 == k) = true
    · rw [if_pos hkq] at hfq
      subst hfq
      intro u hu
      rcases List.mem_append.mp hu with hu | hu
      · exact hm q hq u hu
      · rw [List.mem_singleton.mp hu, beq_iff_eq.mp hkq]
        exact hk
    · rw [if_neg hkq] at hfq
      subst hfq
      exact hm q hq
  · rw [if_neg hany] at hp
    rcases List.mem_append.mp hp with hp | hp
    · exact hm p hp
    · rw [List.mem_singleton.mp hp]
      intro u hu
      rw [List.mem_singleton.mp hu]
      exact hk

lemma findSimilarThreads_score (sim : String → String → ℚ) (θ : ℚ)
    (threads : List Thread) :
    ∀ p ∈ findSimilarThreads sim θ threads, ∀ u ∈ p.2,
      sim p.1 (normStr u.name) ≥ θ := by
  rw [findSimilarThreads]
  have hpairs : ∀ pq ∈ pairsAfter (threads.map (fun t => (normStr t.name, t))),
      pq.2.1 = normStr pq.2.2.name := by
    intro pq hpq
    have h2 := (pairsAfter_mem _ pq hpq).2
    obtain ⟨t, _, he⟩ := List.mem_map.mp h2
    rw [← he]
  suffices h : ∀ (pl : List ((String × Thread) × (String × Thread)))
      (m : List (String × List Thread)),
      (∀ pq ∈ pl, pq.2.1 = normStr pq.2.2.name) →
      (∀ p ∈ m, ∀ u ∈ p.2, sim p.1 (normStr u.name) ≥ θ) →
      ∀ p ∈ pl.foldl (fun m pq =>
          if sim pq.1.1 pq.2.1 ≥ θ then addCluster m pq.1.1 pq.2.2 else m) m,
        ∀ u ∈ p.2, sim p.1 (normStr u.name) ≥ θ by
    exact h _ [] hpairs (by simp)
  intro pl
  induction pl with
  | nil => intro m _ hm; exact hm
  | cons pq pl ih =>
    intro m hpl hm
    rw [List.foldl_cons]
    refine ih _ (fun q hq => hpl q (List.mem_cons_of_mem _ hq)) ?_
    by_cases hs : sim pq.1.1 pq.2.1 ≥ θ
    · rw [if_pos hs]
      refine addCluster_inv (fun k u => sim k (normStr u.name) ≥ θ) hm ?_
      have he := hpl pq (List.mem_cons_self _ _)
      rw [he] at hs
      exact hs
    · rw [if_neg hs]
      exact hm

/-- C9: every cluster found at similarity threshold 0.8 pairs its key with
members scoring at least 0.8 against it, and an alert is posted to the
moderation channel for a cluster exactly when no existing moderation-channel
thread's (lower-cased) title or message body contains one of the cluster
members' extracted, lower-cased guild names. -/
theorem similar_alert_iff (sim : String → String → ℚ) (threads : List Thread)
    (modThreads : List ModThread) :
    (∀ p ∈ findSimilarThreads sim 0.8 threads, ∀ u ∈ p.2,
      sim p.1 (normStr u.name) ≥ 0.8) ∧
    (∀ cluster ∈ findSimilarThreads sim 0.8 threads,
      (cluster ∈ checkAndPostSimilarThreads sim threads modThreads ↔
        ¬ ∃ mt ∈ modThreads, ∃ g ∈ guildNamesOf cluster.2,
          (jsIncludes (jsLower mt.name) g = true ∨
            ∃ msg ∈ mt.messages, jsIncludes (jsLower msg) g = true))) := by
  refine ⟨findSimilarThreads_score sim 0.8 threads, ?_⟩
  intro cluster hc
  rw [checkAndPostSimilarThreads, List.mem_filter]
  constructor
  · rintro ⟨-, hb⟩ hex
    rw [Bool.not_eq_eq_eq_not, Bool.not_true] at hb
    obtain ⟨mt, hmt, g, hg, hcase⟩ := hex
    have hfalse := List.any_eq_false.mp hb mt hmt
    apply hfalse
    rw [modThreadMentions]
    refine List.any_eq_true.mpr ⟨g, hg, ?_⟩
    rcases hcase with h | ⟨msg, hmsg, h⟩
    · rw [Bool.or_eq_true]
      exact Or.inl h
    · rw [Bool.or_eq_true]
      exact Or.inr (List.any_eq_true.mpr ⟨msg, hmsg, h⟩)
  · intro hne
    refine ⟨hc, ?_⟩
    rw [Bool.not_eq_eq_eq_not, Bool.not_true, List.any_eq_false]
    intro mt hmt hmention
    apply hne
    rw [modThreadMentions] at hmention
    obtain ⟨g, hg, hor⟩ := List.any_eq_true.mp hmention
    simp only [Bool.or_eq_true] at hor
    rcases hor with h | h
    · exact ⟨mt, hmt, g, hg, Or.inl h⟩
    · obtain ⟨msg, hmsg, hmm⟩ := List.any_eq_true.mp h
      exact ⟨mt, hmt, g, hg, Or.inr ⟨msg, hmsg, hmm⟩⟩

/-- C9 witness: with a trivially-maximal similarity score, two threads form a
cluster and, the moderation channel being empty, the alert is posted. -/
theorem similar_alert_iff_witness :
    (("<alpha> - raid", [⟨"<Alpha B> - Raid", none⟩]) : String × List Thread) ∈
      checkAndPostSimilarThreads (fun _ _ => 1)
        [⟨"<Alpha> - Raid", none⟩, ⟨"<Alpha B> - Raid", none⟩] [] := by
  have hlist : findSimilarThreads (fun _ _ => (1 : ℚ)) 0.8
      [⟨"<Alpha> - Raid", none⟩, ⟨"<Alpha B> - Raid", none⟩] =
      [("<alpha> - raid", [⟨"<Alpha B> - Raid", none⟩])] := by
    with_unfolding_all rfl
  have h := (similar_alert_iff (fun _ _ => 1)
    [⟨"<Alpha> - Raid", none⟩, ⟨"<Alpha B> - Raid", none⟩] []).2
    ("<alpha> - raid", [⟨"<Alpha B> - Raid", none⟩])
    (by rw [hlist]; exact List.mem_cons_self _ _)
  exact h.mpr (by simp)

/-! ## Theorems: cycle idempotence (C7) -/

/-- C7 counterexample: starting from empty channels with two identical fresh
`Alpha` rows, the first cycle creates the same thread twice, and the second
cycle — with the spreadsheet and the clock unchanged — deletes one of them in
its duplicate-removal phase.  The second run thus performs a deletion outside
the one-repost-per-channel churn, refuting the claimed idempotence for
arbitrary sheets. -/
theorem cycle_not_idempotent_cex :
    ((runCycle 1704067200000 24 14 (fun c => c.isAlpha || c.isDigit) none
        [["Guild Name", "Faction", "Timestamp", "Guild Type"],
         ["Alpha", "Alliance", "01/01/2024 00:00:00", "Raid"],
         ["Alpha", "Alliance", "01/01/2024 00:00:00", "Raid"]]
        (runCycle 1704067200000 24 14 (fun c => c.isAlpha || c.isDigit) none
          [["Guild Name", "Faction", "Timestamp", "Guild Type"],
           ["Alpha", "Alliance", "01/01/2024 00:00:00", "Raid"],
           ["Alpha", "Alliance", "01/01/2024 00:00:00", "Raid"]]
          ⟨[], []⟩).1).2.dupDeletedA =
      [⟨"<Alpha> - Raid", some 1704067200000⟩]) ∧
    ((runCycle 1704067200000 24 14 (fun c => c.isAlpha || c.isDigit) none
        [["Guild Name", "Faction", "Timestamp", "Guild Type"],
         ["Alpha", "Alliance", "01/01/2024 00:00:00", "Raid"],
         ["Alpha", "Alliance", "01/01/2024 00:00:00", "Raid"]]
        (runCycle 1704067200000 24 14 (fun c => c.isAlpha || c.isDigit) none
          [["Guild Name", "Faction", "Timestamp", "Guild Type"],
           ["Alpha", "Alliance", "01/01/2024 00:00:00", "Raid"],
           ["Alpha", "Alliance", "01/01/2024 00:00:00", "Raid"]]
          ⟨[], []⟩).1).2.repostDeletedA = []) := by
  constructor
  · with_unfolding_all rfl
  · with_unfolding_all rfl

lemma trimRight_append_keep (a b : List Char) (c : Char) (hc : jsSpace c = false) :
    ∃ w, ((a ++ c :: b).reverse.dropWhile jsSpace).reverse = a ++ c :: w := by
  have hrev : (a ++ c :: b).reverse = b.reverse ++ (c :: a.reverse) := by
    rw [List.reverse_append, List.reverse_cons, List.append_assoc,
      List.singleton_append]
  rw [hrev, List.dropWhile_append]
  by_cases hemp : (b.reverse.dropWhile jsSpace).isEmpty = true
  · rw [if_pos hemp, List.dropWhile_cons_of_neg (by rw [hc]; exact Bool.false_ne_true)]
    refine ⟨[], ?_⟩
    rw [List.reverse_cons, List.reverse_reverse]
  · rw [if_neg hemp]
    refine ⟨(b.reverse.dropWhile jsSpace).reverse, ?_⟩
    rw [List.reverse_append, List.reverse_cons, List.reverse_reverse,
      List.append_assoc, List.singleton_append]

lemma jsTrim_bracket (g s : String) :
    ∃ w, (jsTrim ("<" ++ g ++ "> - " ++ s)).data = '<' :: (g.data ++ '>' :: w) := by
  have hdata : ("<" ++ g ++ "> - " ++ s).data =
      ('<' :: g.data) ++ '>' :: (' ' :: '-' :: ' ' :: s.data) := by
    simp [String.data_append]
  have hshow : (jsTrim ("<" ++ g ++ "> - " ++ s)).data =
      trimChars (("<" ++ g ++ "> - " ++ s).data) := rfl
  rw [hshow, hdata, trimChars]
  have hdrop : (('<' :: g.data) ++ '>' :: (' ' :: '-' :: ' ' :: s.data)).dropWhile
      jsSpace = ('<' :: g.data) ++ '>' :: (' ' :: '-' :: ' ' :: s.data) := by
    rw [List.cons_append, List.dropWhile_cons_of_neg (by decide)]
  rw [hdrop]
  obtain ⟨w, hw⟩ := trimRight_append_keep ('<' :: g.data)
    (' ' :: '-' :: ' ' :: s.data) '>' (by decide)
  exact ⟨w, by rw [hw, List.cons_append]⟩

lemma contains_guild_in_derived (g s : String) :
    jsIncludes (normStr ("<" ++ g ++ "> - " ++ s)) (jsLower g) = true := by
  obtain ⟨w, hw⟩ := jsTrim_bracket g s
  rw [jsIncludes, decide_eq_true_iff]
  show (jsLower g).data <:+: (jsLower (jsTrim ("<" ++ g ++ "> - " ++ s))).data
  have hlg : (jsLower g).data = g.data.map Char.toLower := rfl
  have hln : (jsLower (jsTrim ("<" ++ g ++ "> - " ++ s))).data =
      ((jsTrim ("<" ++ g ++ "> - " ++ s)).data).map Char.toLower := rfl
  rw [hlg, hln, hw]
  refine ⟨[Char.toLower '<'], Char.toLower '>' :: w.map Char.toLower, ?_⟩
  simp

lemma createThreadTitle_eq (isLN : Char → Bool) (g s : String) :
    createThreadTitle isLN g s = sanitizeTitle isLN g s := by
  rw [createThreadTitle]
  rw [if_neg (by simpa [beq_iff_eq] using sanitizeTitle_ne_empty isLN g s)]

lemma contains_guild_derivedTitle (isLN : Char → Bool) (gIdx sIdx : Nat) (r : Row)
    (hg : jsTrim (regexRemoveAll isLN (cellTrim r gIdx)) = cellTrim r gIdx) :
    jsIncludes (normStr (derivedTitle isLN gIdx sIdx r))
      (jsLower (cellTrim r gIdx)) = true := by
  rw [derivedTitle, sanitizeTitle, hg]
  exact contains_guild_in_derived _ _

lemma mkNewThread_name (now : Int) (isLN : Char → Bool) (gIdx sIdx : Nat) (r : Row) :
    (mkNewThread now isLN gIdx sIdx r).name = derivedTitle isLN gIdx sIdx r := by
  rw [mkNewThread, derivedTitle]
  exact createThreadTitle_eq isLN _ _

lemma needsRepost_fresh (now : Int) (limitH : ℚ) (hlim : 0 < limitH) (nm : String) :
    needsRepost (now : ℚ) limitH ⟨nm, some now⟩ = false := by
  have hage : getThreadAge (now : ℚ) ⟨nm, some now⟩ = ((now : ℚ) - (now : ℚ)) / msPerHour :=
    rfl
  rw [needsRepost, hage, sub_self, zero_div]
  exact decide_eq_false (not_le.mpr hlim)

lemma removeUnmatchedThreads_keep_all (now maxD : ℚ) (rows : List Row)
    (threads : List Thread) (headers : Row) (gIdx tIdx : Nat)
    (hh : rows.head? = some headers)
    (hcg : colIdx headers "Guild Name" = some gIdx)
    (hct : colIdx headers "Timestamp" = some tIdx)
    (hkeep : ∀ t ∈ threads, ∃ r ∈ rows.tail, rowEligible now maxD gIdx tIdx r ∧
      jsIncludes (normStr t.name) (jsLower (cellTrim r gIdx)) = true) :
    removeUnmatchedThreads now maxD rows threads = (threads, []) := by
  have hred : removeUnmatchedThreads now maxD rows threads =
      (threads.filter (fun u => !unmatchedDelete now maxD
         (sheetEntries now maxD gIdx tIdx rows.tail) u),
       threads.filter (fun u => unmatchedDelete now maxD
         (sheetEntries now maxD gIdx tIdx rows.tail) u)) := by
    simp only [removeUnmatchedThreads, hh, hcg, hct]
  have hfalse : ∀ t ∈ threads, unmatchedDelete now maxD
      (sheetEntries now maxD gIdx tIdx rows.tail) t = false := by
    intro t htm
    have hiff := unmatchedDelete_iff now maxD (sheetEntries now maxD gIdx tIdx rows.tail)
      (sheetEntries_values_fresh now maxD gIdx tIdx rows.tail) t
    have hex := sheetEntries_exists_key now maxD gIdx tIdx
      (fun k => jsIncludes (normStr t.name) k) rows.tail
    rw [Bool.eq_false_iff]
    intro htrue
    exact (hiff.mp htrue) (hex.mpr (hkeep t htm))
  rw [hred,
    show threads.filter (fun u => !unmatchedDelete now maxD
        (sheetEntries now maxD gIdx tIdx rows.tail) u) = threads from
      List.filter_eq_self.mpr (fun t htm => by rw [hfalse t htm]; rfl),
    show threads.filter (fun u => unmatchedDelete now maxD
        (sheetEntries now maxD gIdx tIdx rows.tail) u) = [] from
      List.filter_eq_nil_iff.mpr (fun t htm => by rw [hfalse t htm]; exact
        Bool.false_ne_true)]

lemma repostChannel_no_candidates (now : Int) (limitH maxD : ℚ) (isLN : Char → Bool)
    (rows : List Row) (threads : List Thread) (headers : Row)
    (hh : rows.head? = some headers)
    (hnr : ∀ t ∈ threads, needsRepost (now : ℚ) limitH t = false) :
    repostChannel now limitH maxD isLN rows threads = ⟨threads, [], [], false⟩ := by
  have hfilt : threads.filter (needsRepost (now : ℚ) limitH) = [] :=
    List.filter_eq_nil_iff.mpr (fun t htm => by rw [hnr t htm]; exact Bool.false_ne_true)
  have hcand : repostCandidates now limitH threads = [] := by
    rw [repostCandidates, hfilt, List.mergeSort_nil]
  simp only [repostChannel, hh]
  cases hgi : colIdx headers "Guild Name" with
  | none => rfl
  | some gIdx =>
    simp only [hcand]
    rfl

lemma mem_newGuildNames {gIdx : Nat} {names : List String} {rows : List Row}
    {g : String} :
    g ∈ newGuildNames gIdx names rows ↔
      ∃ r ∈ rows, cellTrim r gIdx = g ∧ g ≠ "" ∧
        ∀ tn ∈ names, jsIncludes tn (jsLower g) = false := by
  have h := newGuildNames_fold_mem gIdx names g rows []
  simpa [newGuildNames] using h

lemma postLoop_skip_all (now : Int) (maxD : ℚ) (isLN : Char → Bool) (cap : Nat)
    (gIdx fIdx tIdx sIdx : Nat) (headers : Row) (newNames : List String) :
    ∀ (rows : List Row) (outs : List CreateOutcome) (st : PostState),
      (∀ r ∈ rows, cellTrim r gIdx ≠ "" → cellTrim r gIdx ∈ newNames →
        ∃ ts, cell r tIdx = some ts ∧
          (isEntryTooOld now maxD (jsTrim ts) = true ∨
            chanOf (cellTrim r fIdx) = none)) →
      postLoop now maxD isLN cap gIdx fIdx tIdx sIdx headers newNames rows outs st =
        st := by
  intro rows
  induction rows with
  | nil => intro outs st _; rfl
  | cons r rs ih =>
    intro outs st h
    have htail : ∀ r' ∈ rs, cellTrim r' gIdx ≠ "" → cellTrim r' gIdx ∈ newNames →
        ∃ ts, cell r' tIdx = some ts ∧
          (isEntryTooOld now maxD (jsTrim ts) = true ∨
            chanOf (cellTrim r' fIdx) = none) :=
      fun r' hr' => h r' (List.mem_cons_of_mem _ hr')
    rw [postLoop]
    split
    next h1 => rfl
    next h1 =>
      split
      next h2 => exact ih outs st htail
      next h2 =>
        rw [not_or] at h2
        obtain ⟨ts, hts, hdisj⟩ := h r (List.mem_cons_self _ _) h2.1 (not_not.mp h2.2)
        split
        next heq => rw [heq] at hts; exact absurd hts (Option.noConfusion)
        next tsRaw heq =>
          have htseq : ts = tsRaw := by
            rw [heq] at hts
            exact (Option.some.injEq _ _ ▸ hts).symm
          split
          next h3 => exact ih outs st htail
          next h3 =>
            split
            next hch => exact ih outs st htail
            next ch hch =>
              exfalso
              cases hdisj with
              | inl hold => rw [htseq] at hold; exact h3 hold
              | inr hnone => rw [hnone] at hch; exact Option.noConfusion hch

lemma createPred_false_of_skip (now : Int) (maxD : ℚ) (gIdx fIdx tIdx : Nat)
    (newNames : List String) (c : Chan) (r : Row)
    (h : cellTrim r gIdx = "" ∨ cellTrim r gIdx ∉ newNames) :
    createPred now maxD gIdx fIdx tIdx newNames c r = false := by
  cases h with
  | inl h => simp [createPred, h]
  | inr h => simp [createPred, h]

lemma createPred_false_of_old (now : Int) (maxD : ℚ) (gIdx fIdx tIdx : Nat)
    (newNames : List String) (c : Chan) (r : Row)
    (h : isEntryTooOld now maxD (cellTrim r tIdx) = true) :
    createPred now maxD gIdx fIdx tIdx newNames c r = false := by
  simp [createPred, h]

lemma createPred_false_of_unrouted (now : Int) (maxD : ℚ) (gIdx fIdx tIdx : Nat)
    (newNames : List String) (c : Chan) (r : Row)
    (h : chanOf (cellTrim r fIdx) = none) :
    createPred now maxD gIdx fIdx tIdx newNames c r = false := by
  simp [createPred, h]

lemma createPred_false_of_other (now : Int) (maxD : ℚ) (gIdx fIdx tIdx : Nat)
    (newNames : List String) (c c' : Chan) (r : Row)
    (h : chanOf (cellTrim r fIdx) = some c) (hne : c ≠ c') :
    createPred now maxD gIdx fIdx tIdx newNames c' r = false := by
  simp [createPred, h, hne]

lemma createPred_true_of (now : Int) (maxD : ℚ) (gIdx fIdx tIdx : Nat)
    (newNames : List String) (c : Chan) (r : Row)
    (h1 : cellTrim r gIdx ≠ "") (h2 : cellTrim r gIdx ∈ newNames)
    (h3 : isEntryTooOld now maxD (cellTrim r tIdx) = false)
    (h4 : chanOf (cellTrim r fIdx) = some c) :
    createPred now maxD gIdx fIdx tIdx newNames c r = true := by
  simp [createPred, h1, h2, h3, h4]

lemma createAny_false (now : Int) (maxD : ℚ) (gIdx fIdx tIdx : Nat)
    (newNames : List String) (r : Row)
    (hA : createPred now maxD gIdx fIdx tIdx newNames Chan.alliance r = false)
    (hH : createPred now maxD gIdx fIdx tIdx newNames Chan.horde r = false) :
    createAny now maxD gIdx fIdx tIdx newNames r = false := by
  simp [createAny, hA, hH]

lemma postLoop_all_ok (now : Int) (maxD : ℚ) (isLN : Char → Bool) (cap : Nat)
    (gIdx fIdx tIdx sIdx : Nat) (headers : Row) (newNames : List String) :
    ∀ (rows : List Row) (st : PostState),
      (∀ r ∈ rows, cellTrim r gIdx ≠ "" → cellTrim r gIdx ∈ newNames →
        (∃ ts, cell r tIdx = some ts) ∧ msgContentOk headers r = true ∧
          (∃ sc, cell r sIdx = some sc)) →
      st.posts + (rows.filter (createAny now maxD gIdx fIdx tIdx newNames)).length
          ≤ cap →
      postLoop now maxD isLN cap gIdx fIdx tIdx sIdx headers newNames rows [] st =
        ⟨⟨st.chans.alliance ++
            (rows.filter (createPred now maxD gIdx fIdx tIdx newNames
              Chan.alliance)).map (mkNewThread now isLN gIdx sIdx),
          st.chans.horde ++
            (rows.filter (createPred now maxD gIdx fIdx tIdx newNames
              Chan.horde)).map (mkNewThread now isLN gIdx sIdx)⟩,
         st.attempts ++ (rows.filter (createAny now maxD gIdx fIdx tIdx
            newNames)).map (mkAttempt gIdx fIdx sIdx),
         st.posts + (rows.filter (createAny now maxD gIdx fIdx tIdx newNames)).length,
         st.aborted⟩ := by
  intro rows
  induction rows with
  | nil =>
    intro st _ _
    simp [postLoop]
  | cons r rs ih =>
    intro st h hcap
    have htail : ∀ r' ∈ rs, cellTrim r' gIdx ≠ "" → cellTrim r' gIdx ∈ newNames →
        (∃ ts, cell r' tIdx = some ts) ∧ msgContentOk headers r' = true ∧
          (∃ sc, cell r' sIdx = some sc) :=
      fun r' hr' => h r' (List.mem_cons_of_mem _ hr')
    rw [postLoop]
    split
    next h1 =>
      have hlen : ((r :: rs).filter (createAny now maxD gIdx fIdx tIdx
          newNames)).length = 0 := by omega
      have hnilAny : (r :: rs).filter (createAny now maxD gIdx fIdx tIdx newNames)
          = [] := List.length_eq_zero.mp hlen
      have hallF : ∀ x ∈ r :: rs, createAny now maxD gIdx fIdx tIdx newNames x
          = false := fun x hx =>
        Bool.eq_false_iff.mpr (List.filter_eq_nil_iff.mp hnilAny x hx)
      have hpredF : ∀ (c : Chan), ∀ x ∈ r :: rs,
          createPred now maxD gIdx fIdx tIdx newNames c x = false := by
        intro c x hx
        have hf := hallF x hx
        rw [createAny] at hf
        cases c with
        | alliance => exact (Bool.or_eq_false_iff.mp hf).1
        | horde => exact (Bool.or_eq_false_iff.mp hf).2
      have hnilA : (r :: rs).filter (createPred now maxD gIdx fIdx tIdx newNames
          Chan.alliance) = [] :=
        List.filter_eq_nil_iff.mpr (fun x hx => by
          rw [hpredF Chan.alliance x hx]; exact Bool.false_ne_true)
      have hnilH : (r :: rs).filter (createPred now maxD gIdx fIdx tIdx newNames
          Chan.horde) = [] :=
        List.filter_eq_nil_iff.mpr (fun x hx => by
          rw [hpredF Chan.horde x hx]; exact Bool.false_ne_true)
      rw [hnilAny, hnilA, hnilH]
      simp
    next h1 =>
      split
      next h2 =>
        have hpA := createPred_false_of_skip now maxD gIdx fIdx tIdx newNames
          Chan.alliance r h2
        have hpH := createPred_false_of_skip now maxD gIdx fIdx tIdx newNames
          Chan.horde r h2
        have hAny := createAny_false now maxD gIdx fIdx tIdx newNames r hpA hpH
        have hfA : (r :: rs).filter (createPred now maxD gIdx fIdx tIdx newNames
            Chan.alliance) = rs.filter (createPred now maxD gIdx fIdx tIdx newNames
            Chan.alliance) := by
          simp [List.filter_cons, hpA]
        have hfH : (r :: rs).filter (createPred now maxD gIdx fIdx tIdx newNames
            Chan.horde) = rs.filter (createPred now maxD gIdx fIdx tIdx newNames
            Chan.horde) := by
          simp [List.filter_cons, hpH]
        have hfAny : (r :: rs).filter (createAny now maxD gIdx fIdx tIdx newNames) =
            rs.filter (createAny now maxD gIdx fIdx tIdx newNames) := by
          simp [List.filter_cons, hAny]
        rw [hfA, hfH, hfAny]
        rw [hfAny] at hcap
        exact ih st htail hcap
      next h2 =>
        rw [not_or] at h2
        obtain ⟨hex, hmsg, hscex⟩ := h r (List.mem_cons_self _ _) h2.1
          (not_not.mp h2.2)
        obtain ⟨ts, hts⟩ := hex
        obtain ⟨sc, hsc⟩ := hscex
        split
        next heq => rw [heq] at hts; exact absurd hts Option.noConfusion
        next tsRaw heq =>
          have hct : cellTrim r tIdx = jsTrim tsRaw := by
            simp [cellTrim, heq]
          split
          next h3 =>
            have hold : isEntryTooOld now maxD (cellTrim r tIdx) = true := by
              rw [hct]; exact h3
            have hpA := createPred_false_of_old now maxD gIdx fIdx tIdx newNames
              Chan.alliance r hold
            have hpH := createPred_false_of_old now maxD gIdx fIdx tIdx newNames
              Chan.horde r hold
            have hAny := createAny_false now maxD gIdx fIdx tIdx newNames r hpA hpH
            have hfA : (r :: rs).filter (createPred now maxD gIdx fIdx tIdx newNames
                Chan.alliance) = rs.filter (createPred now maxD gIdx fIdx tIdx
                newNames Chan.alliance) := by
              simp [List.filter_cons, hpA]
            have hfH : (r :: rs).filter (createPred now maxD gIdx fIdx tIdx newNames
                Chan.horde) = rs.filter (createPred now maxD gIdx fIdx tIdx newNames
                Chan.horde) := by
              simp [List.filter_cons, hpH]
            have hfAny : (r :: rs).filter (createAny now maxD gIdx fIdx tIdx
                newNames) = rs.filter (createAny now maxD gIdx fIdx tIdx newNames) := by
              simp [List.filter_cons, hAny]
            rw [hfA, hfH, hfAny]
            rw [hfAny] at hcap
            exact ih st htail hcap
          next h3 =>
            have hfresh : isEntryTooOld now maxD (cellTrim r tIdx) = false := by
              rw [hct]; exact Bool.eq_false_iff.mpr h3
            split
            next hch =>
              have hpA := createPred_false_of_unrouted now maxD gIdx fIdx tIdx
                newNames Chan.alliance r hch
              have hpH := createPred_false_of_unrouted now maxD gIdx fIdx tIdx
                newNames Chan.horde r hch
              have hAny := createAny_false now maxD gIdx fIdx tIdx newNames r hpA hpH
              have hfA : (r :: rs).filter (createPred now maxD gIdx fIdx tIdx
                  newNames Chan.alliance) = rs.filter (createPred now maxD gIdx fIdx
                  tIdx newNames Chan.alliance) := by
                simp [List.filter_cons, hpA]
              have hfH : (r :: rs).filter (createPred now maxD gIdx fIdx tIdx
                  newNames Chan.horde) = rs.filter (createPred now maxD gIdx fIdx
                  tIdx newNames Chan.horde) := by
                simp [List.filter_cons, hpH]
              have hfAny : (r :: rs).filter (createAny now maxD gIdx fIdx tIdx
                  newNames) = rs.filter (createAny now maxD gIdx fIdx tIdx
                  newNames) := by
                simp [List.filter_cons, hAny]
              rw [hfA, hfH, hfAny]
              rw [hfAny] at hcap
              exact ih st htail hcap
            next ch hch =>
              dsimp only [nextOutcome]
              cases ch with
              | alliance =>
                have hpA := createPred_true_of now maxD gIdx fIdx tIdx newNames
                  Chan.alliance r h2.1 (not_not.mp h2.2) hfresh hch
                have hpH := createPred_false_of_other now maxD gIdx fIdx tIdx
                  newNames Chan.alliance Chan.horde r hch (by decide)
                have hAny : createAny now maxD gIdx fIdx tIdx newNames r = true := by
                  rw [createAny, hpA, Bool.true_or]
                have hfA : (r :: rs).filter (createPred now maxD gIdx fIdx tIdx
                    newNames Chan.alliance) = r :: rs.filter (createPred now maxD
                    gIdx fIdx tIdx newNames Chan.alliance) := by
                  simp [List.filter_cons, hpA]
                have hfH : (r :: rs).filter (createPred now maxD gIdx fIdx tIdx
                    newNames Chan.horde) = rs.filter (createPred now maxD gIdx fIdx
                    tIdx newNames Chan.horde) := by
                  simp [List.filter_cons, hpH]
                have hfAny : (r :: rs).filter (createAny now maxD gIdx fIdx tIdx
                    newNames) = r :: rs.filter (createAny now maxD gIdx fIdx tIdx
                    newNames) := by
                  simp [List.filter_cons, hAny]
                rw [hfA, hfH, hfAny]
                rw [hfAny, List.length_cons] at hcap
                have hsceq : cellTrim r sIdx = jsTrim sc := by
                  simp [cellTrim, hsc]
                have hpc : postCreateThread now isLN gIdx sIdx r =
                    some (mkNewThread now isLN gIdx sIdx r) := by
                  simp only [postCreateThread, hsc, Option.map_some]
                  rw [mkNewThread, hsceq]
                  rfl
                rw [hpc]
                refine (ih ⟨addThread st.chans Chan.alliance
                    (mkNewThread now isLN gIdx sIdx r),
                    st.attempts ++ [(Chan.alliance, cellTrim r gIdx, cellTrim r sIdx)],
                    st.posts + 1, st.aborted⟩ htail ?_).trans ?_
                · dsimp only
                  omega
                · simp only [addThread, mkNewThread, List.map_cons, mkAttempt, hch,
                    Option.getD_some, List.length_cons]
                  simp [List.append_assoc, Nat.add_assoc, Nat.add_comm,
                    Nat.add_left_comm]
              | horde =>
                have hpH := createPred_true_of now maxD gIdx fIdx tIdx newNames
                  Chan.horde r h2.1 (not_not.mp h2.2) hfresh hch
                have hpA := createPred_false_of_other now maxD gIdx fIdx tIdx
                  newNames Chan.horde Chan.alliance r hch (by decide)
                have hAny : createAny now maxD gIdx fIdx tIdx newNames r = true := by
                  rw [createAny, hpH, Bool.or_true]
                have hfA : (r :: rs).filter (createPred now maxD gIdx fIdx tIdx
                    newNames Chan.alliance) = rs.filter (createPred now maxD gIdx
                    fIdx tIdx newNames Chan.alliance) := by
                  simp [List.filter_cons, hpA]
                have hfH : (r :: rs).filter (createPred now maxD gIdx fIdx tIdx
                    newNames Chan.horde) = r :: rs.filter (createPred now maxD gIdx
                    fIdx tIdx newNames Chan.horde) := by
                  simp [List.filter_cons, hpH]
                have hfAny : (r :: rs).filter (createAny now maxD gIdx fIdx tIdx
                    newNames) = r :: rs.filter (createAny now maxD gIdx fIdx tIdx
                    newNames) := by
                  simp [List.filter_cons, hAny]
                rw [hfA, hfH, hfAny]
                rw [hfAny, List.length_cons] at hcap
                have hsceq : cellTrim r sIdx = jsTrim sc := by
                  simp [cellTrim, hsc]
                have hpc : postCreateThread now isLN gIdx sIdx r =
                    some (mkNewThread now isLN gIdx sIdx r) := by
                  simp only [postCreateThread, hsc, Option.map_some]
                  rw [mkNewThread, hsceq]
                  rfl
                rw [hpc]
                refine (ih ⟨addThread st.chans Chan.horde
                    (mkNewThread now isLN gIdx sIdx r),
                    st.attempts ++ [(Chan.horde, cellTrim r gIdx, cellTrim r sIdx)],
                    st.posts + 1, st.aborted⟩ htail ?_).trans ?_
                · dsimp only
                  omega
                · simp only [addThread, mkNewThread, List.map_cons, mkAttempt, hch,
                    Option.getD_some, List.length_cons]
                  simp [List.append_assoc, Nat.add_assoc, Nat.add_comm,
                    Nat.add_left_comm]

lemma createPred_named (now : Int) (maxD : ℚ) (gIdx fIdx tIdx : Nat)
    (newNames : List String) (c : Chan) (r : Row)
    (h : createPred now maxD gIdx fIdx tIdx newNames c r = true) :
    cellTrim r gIdx ≠ "" := by
  intro hne
  have hf := createPred_false_of_skip now maxD gIdx fIdx tIdx newNames c r (Or.inl hne)
  rw [hf] at h
  exact Bool.false_ne_true h

lemma createPred_fresh (now : Int) (maxD : ℚ) (gIdx fIdx tIdx : Nat)
    (newNames : List String) (c : Chan) (r : Row)
    (h : createPred now maxD gIdx fIdx tIdx newNames c r = true) :
    isEntryTooOld now maxD (cellTrim r tIdx) = false := by
  cases hb : isEntryTooOld now maxD (cellTrim r tIdx) with
  | false => rfl
  | true =>
    have hf := createPred_false_of_old now maxD gIdx fIdx tIdx newNames c r hb
    rw [hf] at h
    exact absurd h Bool.false_ne_true

lemma s1_nodup (now : Int) (maxD : ℚ) (isLN : Char → Bool)
    (gIdx fIdx tIdx sIdx : Nat) (newNames : List String) (c : Chan) (body : List Row)
    (hnd : ((body.filter (fun r => decide (cellTrim r gIdx ≠ ""))).map
        (fun r => normStr (derivedTitle isLN gIdx sIdx r))).Nodup) :
    (((body.filter (createPred now maxD gIdx fIdx tIdx newNames c)).map
        (mkNewThread now isLN gIdx sIdx)).map (fun t => normStr t.name)).Nodup := by
  rw [List.map_map]
  have hfun : ((fun t => normStr t.name) ∘ mkNewThread now isLN gIdx sIdx) =
      fun r => normStr (derivedTitle isLN gIdx sIdx r) := by
    funext r
    simp [Function.comp, mkNewThread_name]
  rw [hfun]
  have heq : body.filter (createPred now maxD gIdx fIdx tIdx newNames c) =
      (body.filter (fun r => decide (cellTrim r gIdx ≠ ""))).filter
        (createPred now maxD gIdx fIdx tIdx newNames c) := by
    rw [List.filter_filter]
    apply List.filter_congr
    intro a _
    cases hpa : createPred now maxD gIdx fIdx tIdx newNames c a with
    | false => simp [hpa]
    | true =>
      simp [hpa, createPred_named now maxD gIdx fIdx tIdx newNames c a hpa]
  rw [heq]
  exact List.Nodup.sublist
    (List.Sublist.map _ (List.filter_sublist _)) hnd

lemma mkNew_good (now : Int) (maxD : ℚ) (isLN : Char → Bool)
    (gIdx fIdx tIdx sIdx : Nat) (newNames : List String) (c : Chan) (body : List Row)
    (hW : ∀ r ∈ body, cellTrim r gIdx ≠ "" →
      ∃ ts, cell r tIdx = some ts ∧ jsTrim ts = ts ∧ ts ≠ "")
    (hSan : ∀ r ∈ body, cellTrim r gIdx ≠ "" →
      jsTrim (regexRemoveAll isLN (cellTrim r gIdx)) = cellTrim r gIdx) :
    ∀ t ∈ (body.filter (createPred now maxD gIdx fIdx tIdx newNames c)).map
        (mkNewThread now isLN gIdx sIdx),
      ∃ r ∈ body, rowEligible now maxD gIdx tIdx r ∧
        jsIncludes (normStr t.name) (jsLower (cellTrim r gIdx)) = true := by
  intro t ht
  obtain ⟨r, hrf, hteq⟩ := List.mem_map.mp ht
  obtain ⟨hrb, hpred⟩ := List.mem_filter.mp hrf
  have hnamed : cellTrim r gIdx ≠ "" :=
    createPred_named now maxD gIdx fIdx tIdx newNames c r hpred
  obtain ⟨ts, hts, htrim, htne⟩ := hW r hrb hnamed
  have hcteq : cellTrim r tIdx = ts := by
    simp [cellTrim, hts, htrim]
  have hfresh : isEntryTooOld now maxD (cellTrim r tIdx) = false :=
    createPred_fresh now maxD gIdx fIdx tIdx newNames c r hpred
  refine ⟨r, hrb, ⟨?_, ?_, hfresh⟩, ?_⟩
  · intro h0
    exact hnamed (jsLower_eq_empty.mp h0)
  · rw [hcteq]
    exact htne
  · rw [← hteq, mkNewThread_name]
    exact contains_guild_derivedTitle isLN gIdx sIdx r (hSan r hrb hnamed)

/-- C7 (amended): the reconciliation cycle is idempotent on well-formed data.
Starting from empty channels, if the sheet's required columns resolve, the
age threshold is positive, every named row has a present, pre-trimmed,
non-empty timestamp cell, a present scope (`Guild Type`) cell and a
sanitization-stable guild name and renders its message without error,
distinct named rows derive distinct normalized titles,
and the named creations fit under `MAX_NEW_THREADS_PER_CYCLE || 10`, then the
second run of the cycle performs zero duplicate deletions, zero unmatched
deletions, zero repost churn and zero creation attempts, and leaves the
channel state fixed.  (Without these side conditions idempotence fails, e.g.
for duplicate rows — see the counterexample.) -/
theorem cycle_idempotent (now : Int) (limitH maxD : ℚ) (isLN : Char → Bool)
    (capCfg : Option Nat) (headers : Row) (body : List Row)
    (gIdx tIdx fIdx sIdx : Nat)
    (hcolG : colIdx headers "Guild Name" = some gIdx)
    (hcolT : colIdx headers "Timestamp" = some tIdx)
    (hcolF : colIdx headers "Faction" = some fIdx)
    (hcolS : colIdx headers "Guild Type" = some sIdx)
    (hlim : 0 < limitH)
    (hW : ∀ r ∈ body, cellTrim r gIdx ≠ "" →
      ∃ ts, cell r tIdx = some ts ∧ jsTrim ts = ts ∧ ts ≠ "")
    (hSan : ∀ r ∈ body, cellTrim r gIdx ≠ "" →
      jsTrim (regexRemoveAll isLN (cellTrim r gIdx)) = cellTrim r gIdx)
    (hMsg : ∀ r ∈ body, cellTrim r gIdx ≠ "" → msgContentOk headers r = true)
    (hScope : ∀ r ∈ body, cellTrim r gIdx ≠ "" → ∃ sc, cell r sIdx = some sc)
    (hNodup : ((body.filter (fun r => decide (cellTrim r gIdx ≠ ""))).map
        (fun r => normStr (derivedTitle isLN gIdx sIdx r))).Nodup)
    (hCap : (body.filter (createAny now maxD gIdx fIdx tIdx
        (newGuildNames gIdx [] body))).length ≤ capDefault capCfg) :
    runCycle now limitH maxD isLN capCfg (headers :: body)
        (runCycle now limitH maxD isLN capCfg (headers :: body) ⟨[], []⟩).1 =
      ((runCycle now limitH maxD isLN capCfg (headers :: body) ⟨[], []⟩).1,
       ⟨[], [], [], [], [], [], [], [], []⟩) := by
  have hname : ∀ r ∈ body, cellTrim r gIdx ≠ "" →
      cellTrim r gIdx ∈ newGuildNames gIdx [] body := by
    intro r hr hne
    exact mem_newGuildNames.mpr ⟨r, hr, rfl, hne, by simp⟩
  have hcond1 : ∀ r ∈ body, cellTrim r gIdx ≠ "" →
      cellTrim r gIdx ∈ newGuildNames gIdx [] body →
      (∃ ts, cell r tIdx = some ts) ∧ msgContentOk headers r = true ∧
        (∃ sc, cell r sIdx = some sc) := by
    intro r hr hne _
    obtain ⟨ts, hts, _, _⟩ := hW r hr hne
    exact ⟨⟨ts, hts⟩, hMsg r hr hne, hScope r hr hne⟩
  have hpost1 : postNewEntries now maxD isLN capCfg (headers :: body) [] ⟨[], []⟩ =
      ⟨⟨(body.filter (createPred now maxD gIdx fIdx tIdx
            (newGuildNames gIdx [] body) Chan.alliance)).map
            (mkNewThread now isLN gIdx sIdx),
        (body.filter (createPred now maxD gIdx fIdx tIdx
            (newGuildNames gIdx [] body) Chan.horde)).map
            (mkNewThread now isLN gIdx sIdx)⟩,
       (body.filter (createAny now maxD gIdx fIdx tIdx
          (newGuildNames gIdx [] body))).map (mkAttempt gIdx fIdx sIdx),
       (body.filter (createAny now maxD gIdx fIdx tIdx
          (newGuildNames gIdx [] body))).length,
       false⟩ := by
    have hred : postNewEntries now maxD isLN capCfg (headers :: body) [] ⟨[], []⟩ =
        postLoop now maxD isLN (capDefault capCfg) gIdx fIdx tIdx sIdx headers
          (newGuildNames gIdx [] body) body [] ⟨⟨[], []⟩, [], 0, false⟩ := by
      simp only [postNewEntries, List.head?_cons, List.tail_cons, hcolF, hcolG,
        hcolT, hcolS, List.map_nil, List.nil_append]
    rw [hred, postLoop_all_ok now maxD isLN (capDefault capCfg) gIdx fIdx tIdx sIdx
      headers (newGuildNames gIdx [] body) body ⟨⟨[], []⟩, [], 0, false⟩ hcond1
      (by simpa using hCap)]
    simp
  have hdup1 : removeDuplicateThreads ([] : List Thread) = ([], []) := rfl
  have hun1 : removeUnmatchedThreads now maxD (headers :: body) [] = ([], []) :=
    removeUnmatchedThreads_keep_all now maxD (headers :: body) [] headers gIdx tIdx
      rfl hcolG hcolT (by intro t ht; exact absurd ht (List.not_mem_nil t))
  have hrp1 : repostChannel now limitH maxD isLN (headers :: body) [] =
      ⟨[], [], [], false⟩ :=
    repostChannel_no_candidates now limitH maxD isLN (headers :: body) [] headers
      rfl (by intro t ht; exact absurd ht (List.not_mem_nil t))
  have hrun1 : (runCycle now limitH maxD isLN capCfg (headers :: body) ⟨[], []⟩).1 =
      ⟨(body.filter (createPred now maxD gIdx fIdx tIdx
          (newGuildNames gIdx [] body) Chan.alliance)).map
          (mkNewThread now isLN gIdx sIdx),
        (body.filter (createPred now maxD gIdx fIdx tIdx
          (newGuildNames gIdx [] body) Chan.horde)).map
          (mkNewThread now isLN gIdx sIdx)⟩ := by
    simp only [runCycle, hdup1, hun1, hrp1, hpost1]
  have hndA : (((body.filter (createPred now maxD gIdx fIdx tIdx
      (newGuildNames gIdx [] body) Chan.alliance)).map
      (mkNewThread now isLN gIdx sIdx)).map (fun t => normStr t.name)).Nodup :=
    s1_nodup now maxD isLN gIdx fIdx tIdx sIdx (newGuildNames gIdx [] body)
      Chan.alliance body hNodup
  have hndH : (((body.filter (createPred now maxD gIdx fIdx tIdx
      (newGuildNames gIdx [] body) Chan.horde)).map
      (mkNewThread now isLN gIdx sIdx)).map (fun t => normStr t.name)).Nodup :=
    s1_nodup now maxD isLN gIdx fIdx tIdx sIdx (newGuildNames gIdx [] body)
      Chan.horde body hNodup
  have hdup2A : removeDuplicateThreads ((body.filter (createPred now maxD gIdx fIdx
      tIdx (newGuildNames gIdx [] body) Chan.alliance)).map
      (mkNewThread now isLN gIdx sIdx)) =
      ((body.filter (createPred now maxD gIdx fIdx tIdx
        (newGuildNames gIdx [] body) Chan.alliance)).map
        (mkNewThread now isLN gIdx sIdx), []) := by
    rw [removeDuplicateThreads,
      keepFirst_of_nodup _ [] hndA (fun t _ h => absurd h (List.not_mem_nil _)),
      duplicateDeletions_eq_nil_of_nodup hndA]
  have hdup2H : removeDuplicateThreads ((body.filter (createPred now maxD gIdx fIdx
      tIdx (newGuildNames gIdx [] body) Chan.horde)).map
      (mkNewThread now isLN gIdx sIdx)) =
      ((body.filter (createPred now maxD gIdx fIdx tIdx
        (newGuildNames gIdx [] body) Chan.horde)).map
        (mkNewThread now isLN gIdx sIdx), []) := by
    rw [removeDuplicateThreads,
      keepFirst_of_nodup _ [] hndH (fun t _ h => absurd h (List.not_mem_nil _)),
      duplicateDeletions_eq_nil_of_nodup hndH]
  have hun2A : removeUnmatchedThreads now maxD (headers :: body)
      ((body.filter (createPred now maxD gIdx fIdx tIdx
        (newGuildNames gIdx [] body) Chan.alliance)).map
        (mkNewThread now isLN gIdx sIdx)) =
      ((body.filter (createPred now maxD gIdx fIdx tIdx
        (newGuildNames gIdx [] body) Chan.alliance)).map
        (mkNewThread now isLN gIdx sIdx), []) :=
    removeUnmatchedThreads_keep_all now maxD (headers :: body) _ headers gIdx tIdx
      rfl hcolG hcolT
      (mkNew_good now maxD isLN gIdx fIdx tIdx sIdx (newGuildNames gIdx [] body)
        Chan.alliance body hW hSan)
  have hun2H : removeUnmatchedThreads now maxD (headers :: body)
      ((body.filter (createPred now maxD gIdx fIdx tIdx
        (newGuildNames gIdx [] body) Chan.horde)).map
        (mkNewThread now isLN gIdx sIdx)) =
      ((body.filter (createPred now maxD gIdx fIdx tIdx
        (newGuildNames gIdx [] body) Chan.horde)).map
        (mkNewThread now isLN gIdx sIdx), []) :=
    removeUnmatchedThreads_keep_all now maxD (headers :: body) _ headers gIdx tIdx
      rfl hcolG hcolT
      (mkNew_good now maxD isLN gIdx fIdx tIdx sIdx (newGuildNames gIdx [] body)
        Chan.horde body hW hSan)
  have hnrA : ∀ t ∈ (body.filter (createPred now maxD gIdx fIdx tIdx
      (newGuildNames gIdx [] body) Chan.alliance)).map
      (mkNewThread now isLN gIdx sIdx), needsRepost (now : ℚ) limitH t = false := by
    intro t ht
    obtain ⟨r, _, hteq⟩ := List.mem_map.mp ht
    rw [← hteq]
    exact needsRepost_fresh now limitH hlim _
  have hnrH : ∀ t ∈ (body.filter (createPred now maxD gIdx fIdx tIdx
      (newGuildNames gIdx [] body) Chan.horde)).map
      (mkNewThread now isLN gIdx sIdx), needsRepost (now : ℚ) limitH t = false := by
    intro t ht
    obtain ⟨r, _, hteq⟩ := List.mem_map.mp ht
    rw [← hteq]
    exact needsRepost_fresh now limitH hlim _
  have hrp2A : repostChannel now limitH maxD isLN (headers :: body)
      ((body.filter (createPred now maxD gIdx fIdx tIdx
        (newGuildNames gIdx [] body) Chan.alliance)).map
        (mkNewThread now isLN gIdx sIdx)) =
      ⟨(body.filter (createPred now maxD gIdx fIdx tIdx
        (newGuildNames gIdx [] body) Chan.alliance)).map
        (mkNewThread now isLN gIdx sIdx), [], [], false⟩ :=
    repostChannel_no_candidates now limitH maxD isLN (headers :: body) _ headers
      rfl hnrA
  have hrp2H : repostChannel now limitH maxD isLN (headers :: body)
      ((body.filter (createPred now maxD gIdx fIdx tIdx
        (newGuildNames gIdx [] body) Chan.horde)).map
        (mkNewThread now isLN gIdx sIdx)) =
      ⟨(body.filter (createPred now maxD gIdx fIdx tIdx
        (newGuildNames gIdx [] body) Chan.horde)).map
        (mkNewThread now isLN gIdx sIdx), [], [], false⟩ :=
    repostChannel_no_candidates now limitH maxD isLN (headers :: body) _ headers
      rfl hnrH
  have hcov : ∀ r ∈ body, cellTrim r gIdx ≠ "" →
      isEntryTooOld now maxD (cellTrim r tIdx) = false →
      ∀ c, chanOf (cellTrim r fIdx) = some c →
      ∃ tn ∈ (((body.filter (createPred now maxD gIdx fIdx tIdx
            (newGuildNames gIdx [] body) Chan.alliance)).map
            (mkNewThread now isLN gIdx sIdx)).map (fun t => normStr t.name) ++
          ((body.filter (createPred now maxD gIdx fIdx tIdx
            (newGuildNames gIdx [] body) Chan.horde)).map
            (mkNewThread now isLN gIdx sIdx)).map (fun t => normStr t.name)),
        jsIncludes tn (jsLower (cellTrim r gIdx)) = true := by
    intro r hr hnamed hfresh c hc
    have hpred : createPred now maxD gIdx fIdx tIdx
        (newGuildNames gIdx [] body) c r = true :=
      createPred_true_of now maxD gIdx fIdx tIdx (newGuildNames gIdx [] body) c r
        hnamed (hname r hr hnamed) hfresh hc
    have hmemf : r ∈ body.filter (createPred now maxD gIdx fIdx tIdx
        (newGuildNames gIdx [] body) c) := List.mem_filter.mpr ⟨hr, hpred⟩
    refine ⟨normStr (derivedTitle isLN gIdx sIdx r), ?_, ?_⟩
    · have hmm : normStr (derivedTitle isLN gIdx sIdx r) ∈
          ((body.filter (createPred now maxD gIdx fIdx tIdx
            (newGuildNames gIdx [] body) c)).map
            (mkNewThread now isLN gIdx sIdx)).map (fun t => normStr t.name) :=
        List.mem_map.mpr ⟨mkNewThread now isLN gIdx sIdx r,
          List.mem_map_of_mem _ hmemf, by rw [mkNewThread_name]⟩
      cases c with
      | alliance => exact List.mem_append_left _ hmm
      | horde => exact List.mem_append_right _ hmm
    · exact contains_guild_derivedTitle isLN gIdx sIdx r (hSan r hr hnamed)
  have hskipcond : ∀ r ∈ body, cellTrim r gIdx ≠ "" →
      cellTrim r gIdx ∈ newGuildNames gIdx
        (((body.filter (createPred now maxD gIdx fIdx tIdx
            (newGuildNames gIdx [] body) Chan.alliance)).map
            (mkNewThread now isLN gIdx sIdx)).map (fun t => normStr t.name) ++
          ((body.filter (createPred now maxD gIdx fIdx tIdx
            (newGuildNames gIdx [] body) Chan.horde)).map
            (mkNewThread now isLN gIdx sIdx)).map (fun t => normStr t.name)) body →
      ∃ ts, cell r tIdx = some ts ∧
        (isEntryTooOld now maxD (jsTrim ts) = true ∨
          chanOf (cellTrim r fIdx) = none) := by
    intro r hr hnamed hmem2
    obtain ⟨ts, hts, htrim, htne⟩ := hW r hr hnamed
    have hcteq : cellTrim r tIdx = ts := by
      simp [cellTrim, hts, htrim]
    refine ⟨ts, hts, ?_⟩
    by_contra hcon
    rw [not_or] at hcon
    obtain ⟨hnold, hnnone⟩ := hcon
    have hfresh : isEntryTooOld now maxD (cellTrim r tIdx) = false := by
      rw [hcteq, ← htrim]
      exact Bool.eq_false_iff.mpr hnold
    obtain ⟨c, hc⟩ := Option.ne_none_iff_exists'.mp hnnone
    obtain ⟨r', hr', hg', hgne, hnone⟩ := mem_newGuildNames.mp hmem2
    obtain ⟨tn, htn, hinc⟩ := hcov r hr hnamed hfresh c hc
    rw [hnone tn htn] at hinc
    exact Bool.false_ne_true hinc
  have hpost2 : postNewEntries now maxD isLN capCfg (headers :: body) []
      ⟨(body.filter (createPred now maxD gIdx fIdx tIdx
          (newGuildNames gIdx [] body) Chan.alliance)).map
          (mkNewThread now isLN gIdx sIdx),
        (body.filter (createPred now maxD gIdx fIdx tIdx
          (newGuildNames gIdx [] body) Chan.horde)).map
          (mkNewThread now isLN gIdx sIdx)⟩ =
      ⟨⟨(body.filter (createPred now maxD gIdx fIdx tIdx
          (newGuildNames gIdx [] body) Chan.alliance)).map
          (mkNewThread now isLN gIdx sIdx),
        (body.filter (createPred now maxD gIdx fIdx tIdx
          (newGuildNames gIdx [] body) Chan.horde)).map
          (mkNewThread now isLN gIdx sIdx)⟩, [], 0, false⟩ := by
    have hred2 : postNewEntries now maxD isLN capCfg (headers :: body) []
        ⟨(body.filter (createPred now maxD gIdx fIdx tIdx
            (newGuildNames gIdx [] body) Chan.alliance)).map
            (mkNewThread now isLN gIdx sIdx),
          (body.filter (createPred now maxD gIdx fIdx tIdx
            (newGuildNames gIdx [] body) Chan.horde)).map
            (mkNewThread now isLN gIdx sIdx)⟩ =
        postLoop now maxD isLN (capDefault capCfg) gIdx fIdx tIdx sIdx headers
          (newGuildNames gIdx
            (((body.filter (createPred now maxD gIdx fIdx tIdx
              (newGuildNames gIdx [] body) Chan.alliance)).map
              (mkNewThread now isLN gIdx sIdx)).map (fun t => normStr t.name) ++
            ((body.filter (createPred now maxD gIdx fIdx tIdx
              (newGuildNames gIdx [] body) Chan.horde)).map
              (mkNewThread now isLN gIdx sIdx)).map (fun t => normStr t.name)) body)
          body []
          ⟨⟨(body.filter (createPred now maxD gIdx fIdx tIdx
              (newGuildNames gIdx [] body) Chan.alliance)).map
              (mkNewThread now isLN gIdx sIdx),
            (body.filter (createPred now maxD gIdx fIdx tIdx
              (newGuildNames gIdx [] body) Chan.horde)).map
              (mkNewThread now isLN gIdx sIdx)⟩, [], 0, false⟩ := by
      simp only [postNewEntries, List.head?_cons, List.tail_cons, hcolF, hcolG,
        hcolT, hcolS]
    rw [hred2]
    exact postLoop_skip_all now maxD isLN (capDefault capCfg) gIdx fIdx tIdx sIdx
      headers _ body [] _ hskipcond
  rw [hrun1]
  simp only [runCycle, hdup2A, hdup2H, hun2A, hun2H, hrp2A, hrp2H, hpost2]

/-- C7 witness: on a well-formed one-row sheet the second cycle performs no
deletions and no creations and leaves the channel state fixed. -/
theorem cycle_idempotent_witness :
    runCycle 1704067200000 24 14 (fun c => c.isAlpha || c.isDigit) none
        [["Guild Name", "Faction", "Timestamp", "Guild Type"],
         ["Alpha", "Alliance", "01/01/2024 00:00:00", "Raid"]]
        (runCycle 1704067200000 24 14 (fun c => c.isAlpha || c.isDigit) none
          [["Guild Name", "Faction", "Timestamp", "Guild Type"],
           ["Alpha", "Alliance", "01/01/2024 00:00:00", "Raid"]] ⟨[], []⟩).1 =
      ((runCycle 1704067200000 24 14 (fun c => c.isAlpha || c.isDigit) none
          [["Guild Name", "Faction", "Timestamp", "Guild Type"],
           ["Alpha", "Alliance", "01/01/2024 00:00:00", "Raid"]] ⟨[], []⟩).1,
       ⟨[], [], [], [], [], [], [], [], []⟩) :=
  cycle_idempotent 1704067200000 24 14 (fun c => c.isAlpha || c.isDigit) none
    ["Guild Name", "Faction", "Timestamp", "Guild Type"]
    [["Alpha", "Alliance", "01/01/2024 00:00:00", "Raid"]] 0 2 1 3
    rfl rfl rfl rfl
    (by norm_num)
    (by
      intro r hr hne
      rw [List.mem_singleton] at hr
      subst hr
      exact ⟨"01/01/2024 00:00:00", rfl,
        of_decide_eq_true (by with_unfolding_all rfl),
        of_decide_eq_true (by with_unfolding_all rfl)⟩)
    (by
      intro r hr hne
      rw [List.mem_singleton] at hr
      subst hr
      exact of_decide_eq_true (by with_unfolding_all rfl))
    (by
      intro r hr hne
      rw [List.mem_singleton] at hr
      subst hr
      exact of_decide_eq_true (by with_unfolding_all rfl))
    (by
      intro r hr hne
      rw [List.mem_singleton] at hr
      subst hr
      exact ⟨"Raid", rfl⟩)
    (of_decide_eq_true (by with_unfolding_all rfl))
    (of_decide_eq_true (by with_unfolding_all rfl))

end GuildBot
